import Mathlib

/-!
Shallow embedding of the ingestion/deduplication core of the `news-research`
repository (`backend/app/utils.py`, `backend/app/ingestion.py`), together with
theorems settling the specification claims about it.

Conventions of the embedding:
* Python strings are Lean `String`s; character-level operations work on
  `String.data` (ASCII behaviour is modelled; the feeds processed by the
  program are ASCII).
* Machine floats used for confidences (0.93, 0.88, ...) are modelled as exact
  rationals `ℚ`; all confidence values in the program are short decimal
  literals, so float rounding never changes a comparison between them.
* `datetime` values are modelled as integer seconds; `timedelta(hours=48)`
  is `172800` seconds.
* Python `dict`s keyed by strings/ints are modelled as association lists that
  preserve insertion order, mirroring dict semantics.
* Database tables are modelled as in-memory lists of rows; SQLAlchemy queries
  are translated clause by clause.  The `IntegrityError` recovery paths in the
  source are reachable only under a concurrent writer and are unreachable in
  the sequential semantics modelled here.
* `hashlib.sha256(...).hexdigest()` is modelled by an injective placeholder
  (`sha256Str`); no claim depends on the value of a digest, only on equality
  and inequality of digests of equal and distinct inputs.
-/

namespace NewsResearch

/-! ## Character-level helpers (Python `str` methods and `re` character classes) -/

/-- Python's `\s` class for ASCII text: space, tab, newline, carriage return,
vertical tab, form feed. -/
def pyIsSpace (c : Char) : Bool :=
  c = ' ' || c = '\t' || c = '\n' || c = '\r' || c = '\x0b' || c = '\x0c'

/-- ASCII lower-casing of one character (Python `str.lower` on ASCII input). -/
def pyLowerChar (c : Char) : Char := c.toLower

/-- ASCII upper-casing of one character (Python `str.upper` on ASCII input). -/
def pyUpperChar (c : Char) : Char := c.toUpper

/-- Python `str.lower()` (ASCII). -/
def pyLower (s : String) : String := ⟨s.data.map pyLowerChar⟩

/-- Python `str.upper()` (ASCII). -/
def pyUpper (s : String) : String := ⟨s.data.map pyUpperChar⟩

/-- Python `str.strip()`: drop leading and trailing whitespace. -/
def pyStrip (s : String) : String :=
  ⟨(s.data.dropWhile pyIsSpace).reverse.dropWhile pyIsSpace |>.reverse⟩

/-- Helper for `collapseWhitespace`: the flag records whether the previous
character was whitespace (in which case further whitespace is dropped). -/
def collapseAux : Bool → List Char → List Char
  | _, [] => []
  | prevSpace, c :: rest =>
    if pyIsSpace c then
      if prevSpace then collapseAux true rest
      else ' ' :: collapseAux true rest
    else
      c :: collapseAux false rest

/-- `re.sub(r"\s+", " ", text)`: collapse every whitespace run to one space. -/
def collapseWhitespace (l : List Char) : List Char := collapseAux false l

/-- Membership in `[a-z0-9\s]` (the characters `normalize_title` keeps). -/
def keepInTitle (c : Char) : Bool :=
  ('a' ≤ c && c ≤ 'z') || ('0' ≤ c && c ≤ '9') || pyIsSpace c

/-! ## `backend/app/utils.py` -/

/-- `sha256_str`: modelled by an injective placeholder for the hex digest; the
claims only ever compare digests of equal or distinct inputs. -/
def sha256Str (value : String) : String := "sha256:" ++ value

/-- `normalize_title` (utils.py lines 30-33):
`value.strip().lower()`, collapse `\s+` to a single space, then delete every
character outside `[a-z0-9\s]`.  Note: the source performs no HTML
unescaping here. -/
def normalizeTitle (value : String) : String :=
  let normalized := collapseWhitespace (pyStrip (pyLower value)).data
  ⟨normalized.filter keepInTitle⟩

/-! ## `canonicalize_url` (utils.py lines 36-60)

`urllib.parse.urlparse` / `parse_qsl` are Python standard library and form the
parsing boundary of the embedding: `UrlParts` holds their output (scheme,
netloc, path, fragment verbatim; the query as the list of key/value pairs
appearing in the query string, in order).  Everything from utils.py line 41
onward is translated directly. -/

/-- Output of `urllib.parse.urlparse` on a URL, with the query string held as
its list of `key=value` pairs in source order. -/
structure UrlParts where
  scheme : String
  netloc : String
  path : String
  query : List (String × String)
  fragment : String
deriving DecidableEq

def trackingParamPrefixes : List String := ["utm_", "ga_"]

def trackingParamExact : List String := ["tsrc", "cmpid", "ncid", "ocid"]

/-- The tracking-parameter test of utils.py lines 50-54 (key lower-cased,
exact-set membership, then prefix match). -/
def isTrackingKey (key : String) : Bool :=
  let k := pyLower key
  trackingParamExact.contains k || trackingParamPrefixes.any (fun p => p.data.isPrefixOf k.data)

/-- One step of matching a pattern list against the front of a list,
returning the remainder on success. -/
def dropPrefixIfAux : List Char → List Char → Option (List Char)
  | [], l => some l
  | _ :: _, [] => none
  | p :: ps, c :: cs => if p = c then dropPrefixIfAux ps cs else none

/-- Python `netloc.endswith(suf)` followed by `netloc[:-len(suf)]`, fused:
strip `suf` from the end of `l` when present, else return `l` unchanged. -/
def stripSuffixOnce (l suf : List Char) : List Char :=
  match dropPrefixIfAux suf.reverse l.reverse with
  | some rest => rest.reverse
  | none => l

/-- utils.py lines 43-46: strip an explicit `:80`, then an explicit `:443`,
from the end of the (already lower-cased) netloc. -/
def stripDefaultPort (l : List Char) : List Char :=
  stripSuffixOnce (stripSuffixOnce l ":80".data) ":443".data

/-- The canonical netloc: lower-case, then default-port stripping. -/
def canonNetloc (netloc : String) : String :=
  ⟨stripDefaultPort (pyLower netloc).data⟩

/-- utils.py line 41: `parsed.scheme.lower() or "https"`. -/
def canonScheme (scheme : String) : String :=
  let l := pyLower scheme
  if l = "" then "https" else l

/-- utils.py line 58: `parsed.path.rstrip("/") or "/"`. -/
def canonPath (p : String) : String :=
  let r := (p.data.reverse.dropWhile (· = '/')).reverse
  if r.isEmpty then "/" else ⟨r⟩

/-- Upper-case hex digit of a value `< 16` (as used by `urllib.parse.quote`). -/
def hexDigitChar (n : Nat) : Char :=
  if n < 10 then Char.ofNat (48 + n) else Char.ofNat (55 + n)

/-- `urllib.parse.quote_plus` on one ASCII character: alphanumerics and
`_.-~` kept, space becomes `+`, anything else percent-encoded. -/
def quotePlusChar (c : Char) : List Char :=
  if c.isAlphanum || c = '_' || c = '.' || c = '-' || c = '~' then [c]
  else if c = ' ' then ['+']
  else ['%', hexDigitChar (c.toNat / 16 % 16), hexDigitChar (c.toNat % 16)]

/-- `urllib.parse.quote_plus` (ASCII model). -/
def quotePlus (s : String) : String := ⟨(s.data.map quotePlusChar).flatten⟩

/-- `urllib.parse.urlencode` on a list of string pairs (each key and value
quoted with `quote_plus`, joined with `=` and `&`). -/
def urlencodePairs (items : List (String × String)) : String :=
  String.intercalate "&" (items.map fun kv => quotePlus kv.1 ++ "=" ++ quotePlus kv.2)

/-- The order used by Python's `sorted` on a list of string pairs:
lexicographic on the pair, comparing strings by code point. -/
def pairLe (a b : String × String) : Prop :=
  a.1 < b.1 ∨ (a.1 = b.1 ∧ a.2 ≤ b.2)

instance : DecidableRel pairLe := fun a b => by
  unfold pairLe; infer_instance

instance : IsTotal (String × String) pairLe where
  total a b := by
    rcases lt_trichotomy a.1 b.1 with h | h | h
    · exact Or.inl (Or.inl h)
    · rcases le_total a.2 b.2 with h2 | h2
      · exact Or.inl (Or.inr ⟨h, h2⟩)
      · exact Or.inr (Or.inr ⟨h.symm, h2⟩)
    · exact Or.inr (Or.inl h)

instance : IsTrans (String × String) pairLe where
  trans a b c hab hbc := by
    rcases hab with h1 | ⟨h1, h1'⟩ <;> rcases hbc with h2 | ⟨h2, h2'⟩
    · exact Or.inl (h1.trans h2)
    · exact Or.inl (h2 ▸ h1)
    · exact Or.inl (h1 ▸ h2)
    · exact Or.inr ⟨h1.trans h2, h1'.trans h2'⟩

instance : IsAntisymm (String × String) pairLe where
  antisymm a b hab hba := by
    rcases hab with h1 | ⟨h1, h1'⟩
    · rcases hba with h2 | ⟨h2, h2'⟩
      · exact absurd (h1.trans h2) (lt_irrefl _)
      · exact absurd h1 (h2 ▸ lt_irrefl _)
    · rcases hba with h2 | ⟨h2, h2'⟩
      · exact absurd h2 (h1 ▸ lt_irrefl _)
      · exact Prod.ext h1 (le_antisymm h1' h2')

/-- Python `sorted(query_items)`. -/
def sortPairs (items : List (String × String)) : List (String × String) :=
  List.insertionSort pairLe items

/-- `urllib.parse.urlunparse((scheme, netloc, path, "", query, ""))`. -/
def urlunparseStr (scheme netloc path query : String) : String :=
  let core := (if netloc ≠ "" || "//".data.isPrefixOf path.data then "//" ++ netloc else "") ++ path
  let withScheme := if scheme ≠ "" then scheme ++ ":" ++ core else core
  if query ≠ "" then withScheme ++ "?" ++ query else withScheme

/-- `canonicalize_url` (utils.py lines 36-60) from the parse boundary onward:
lower-case scheme with `https` default, lower-cased netloc with explicit
default ports stripped, query pairs with blank values dropped
(`keep_blank_values=False`) and tracking keys removed, remaining pairs
sorted and re-encoded, path with trailing slashes stripped, fragment
dropped.  (The `url == ""` early return of line 37-38 concerns the
pre-parse string and is outside the parse boundary.) -/
def canonicalizeUrl (u : UrlParts) : String :=
  let scheme := canonScheme u.scheme
  let netloc := canonNetloc u.netloc
  let queryItems := (u.query.filter fun kv => kv.2 != "").filter fun kv => !isTrackingKey kv.1
  let query := urlencodePairs (sortPairs queryItems)
  let path := canonPath u.path
  urlunparseStr scheme netloc path query

end NewsResearch

namespace NewsResearch

/-- Sanity: the repository test `test_normalize_title_reduces_noise` input. -/
theorem normalizeTitle_reduces_noise :
    normalizeTitle "  Hello,   World!  " = "hello world" := by decide

/-- Sanity: the repository test `test_canonicalize_url_removes_tracking_params`. -/
theorem canonicalizeUrl_removes_tracking_params :
    canonicalizeUrl ⟨"https", "finance.yahoo.com", "/news/example",
      [("utm_source", "x"), ("tsrc", "rss"), ("id", "7")], ""⟩ =
      "https://finance.yahoo.com/news/example?id=7" := by decide

/-- **C6** (evidence of a code bug).  `normalize_title` performs no HTML
unescaping, so the two encodings of the headline from the repository's own
test `test_normalize_title_unescapes_html_entities` normalize to different
strings (`&` is stripped leaving a double space, while `&amp;` leaves the
word `amp`), hence different title-identity hashes — contradicting the test,
the spec and the claim. -/
theorem c6_normalizeTitle_entity_counterexample :
    normalizeTitle "Cohen & Steers Infrastructure Fund" = "cohen  steers infrastructure fund" ∧
    normalizeTitle "Cohen &amp; Steers Infrastructure Fund" = "cohen amp steers infrastructure fund" ∧
    sha256Str (normalizeTitle "Cohen & Steers Infrastructure Fund") ≠
      sha256Str (normalizeTitle "Cohen &amp; Steers Infrastructure Fund") := by
  refine ⟨by decide, by decide, by decide⟩

end NewsResearch

namespace NewsResearch

/-! ## Ticker extraction (`backend/app/ingestion.py` lines 36-80, 120-126, 240-287)

The three `re` patterns are implemented as character scanners with the same
left-to-right, non-overlapping `findall` semantics:
* `TOKEN_PATTERN = \b[A-Z]{1,5}\b` matches exactly the maximal word-character
  runs that consist solely of `A`-`Z` and have length 1-5;
* `EXCHANGE_PATTERN = \b(?:NYSE|NASDAQ|AMEX|OTC(?:QB|QX)?)\s*[:\-]\s*([A-Z]{1,5})\b`;
* `PAREN_SYMBOL_PATTERN = \(([A-Z]{1,5})\)`.
The scanners carry a fuel argument equal to the text length so that they are
structurally recursive (each step consumes at least one character, so the
fuel never runs out). -/

/-- Python's `\w` for ASCII text. -/
def isWordChar (c : Char) : Bool := c.isAlphanum || c = '_'

/-- Membership in `[A-Z]`. -/
def isUpperAZ (c : Char) : Bool := 'A' ≤ c && c ≤ 'Z'

def STOPWORDS : List String :=
  ["A", "AN", "AND", "ARE", "AS", "AT", "BY", "CEO", "ETF", "FOR", "FROM", "IN",
   "INC", "IS", "IT", "NAV", "NEW", "NOT", "OF", "ON", "OR", "Q", "THE", "TO",
   "US", "USA", "WITH"]

/-- `AMBIGUOUS_TOKEN_SYMBOLS` (ingestion.py lines 78-80). -/
def ambiguousTokenSymbols : List String := ["FUND"]

/-- Split the text into its maximal word-character runs (the first argument
accumulates the current run, reversed). -/
def wordRunsAux : List Char → List Char → List (List Char)
  | cur, [] => if cur.isEmpty then [] else [cur.reverse]
  | cur, c :: rest =>
    if isWordChar c then wordRunsAux (c :: cur) rest
    else if cur.isEmpty then wordRunsAux [] rest
    else cur.reverse :: wordRunsAux [] rest

/-- `TOKEN_PATTERN.findall`: maximal word runs wholly in `[A-Z]` of length
at most 5 (a run bounded by word characters on neither side gives the two
`\b` anchors). -/
def tokenFindall (text : List Char) : List String :=
  ((wordRunsAux [] text).filter fun r => r.length ≤ 5 && r.all isUpperAZ).map
    fun r => (⟨r⟩ : String)

/-- `PAREN_SYMBOL_PATTERN.findall` with fuel. -/
def parenScan : Nat → List Char → List String
  | 0, _ => []
  | _ + 1, [] => []
  | fuel + 1, c :: rest =>
    if c = '(' then
      let run := rest.takeWhile isUpperAZ
      let after := rest.dropWhile isUpperAZ
      if run.length ≥ 1 && run.length ≤ 5 && after.head? == some ')' then
        (⟨run⟩ : String) :: parenScan fuel after.tail
      else parenScan fuel rest
    else parenScan fuel rest

def parenFindall (text : List Char) : List String := parenScan text.length text

/-- The exchange alternatives in the regex engine's backtracking order:
`NYSE|NASDAQ|AMEX|OTC(?:QB|QX)?` tries `OTCQB`, `OTCQX`, then bare `OTC`. -/
def exchangeLiterals : List (List Char) :=
  ["NYSE".data, "NASDAQ".data, "AMEX".data, "OTCQB".data, "OTCQX".data, "OTC".data]

/-- Match `\s*[:\-]\s*([A-Z]{1,5})\b` at the front of `l`, returning the
captured symbol and the remaining characters. -/
def matchExchangeTail (l : List Char) : Option (String × List Char) :=
  match l.dropWhile pyIsSpace with
  | [] => none
  | c :: l2 =>
    if c = ':' || c = '-' then
      let l3 := l2.dropWhile pyIsSpace
      let run := l3.takeWhile isUpperAZ
      let after := l3.dropWhile isUpperAZ
      if run.length ≥ 1 && run.length ≤ 5 &&
          (match after.head? with | none => true | some d => !isWordChar d) then
        some (⟨run⟩, after)
      else none
    else none

/-- Try each exchange literal as a prefix of `l`, continuing with the tail
pattern; on tail failure backtrack to the next literal. -/
def tryExchangeLiterals : List (List Char) → List Char → Option (String × List Char)
  | [], _ => none
  | lit :: more, l =>
    match dropPrefixIfAux lit l with
    | some rest =>
      match matchExchangeTail rest with
      | some r => some r
      | none => tryExchangeLiterals more l
    | none => tryExchangeLiterals more l

/-- `EXCHANGE_PATTERN.findall` with fuel; the Bool records whether the
previous character was a word character (for the leading `\b`). -/
def exchangeScan : Nat → Bool → List Char → List String
  | 0, _, _ => []
  | _ + 1, _, [] => []
  | fuel + 1, prevWord, c :: rest =>
    if !prevWord && isWordChar c then
      match tryExchangeLiterals exchangeLiterals (c :: rest) with
      | some (sym, after) => sym :: exchangeScan fuel true after
      | none => exchangeScan fuel (isWordChar c) rest
    else exchangeScan fuel (isWordChar c) rest

def exchangeFindall (text : List Char) : List String :=
  exchangeScan text.length false text

/-- Python `str.split(sep)` for a one-character separator (the accumulator
holds the current piece, reversed). -/
def splitCharAux (sep : Char) : List Char → List Char → List (List Char)
  | cur, [] => [cur.reverse]
  | cur, c :: rest =>
    if c = sep then cur.reverse :: splitCharAux sep [] rest
    else splitCharAux sep (c :: cur) rest

/-- `_parse_context_symbols` (ingestion.py lines 120-126): the values of the
`s=` query parameter of the feed URL (blank values dropped by `parse_qs`),
split on commas, stripped, upper-cased, empties discarded. -/
def parseContextSymbols (feedUrl : UrlParts) : List String :=
  let values := (feedUrl.query.filter fun kv => kv.1 == "s" && kv.2 != "").map fun kv => kv.2
  values.flatMap fun v =>
    (splitCharAux ',' [] v.data).filterMap fun tok =>
      let t := pyStrip ⟨tok⟩
      if t.data.isEmpty then none else some (pyUpper t)

/-- The confidence literal `0.93` as an exact rational in lowest terms.
(The constants are given by explicit numerator/denominator so that every
comparison between them reduces in the kernel; the bridging lemma
`confidence_values` states their decimal values.) -/
def confContext : ℚ := ⟨93, 100, by norm_num, by norm_num⟩

/-- The confidence literal `0.88` (= 22/25) as an exact rational. -/
def confExchange : ℚ := ⟨22, 25, by norm_num, by norm_num⟩

/-- The confidence literal `0.84` (= 21/25) as an exact rational. -/
def confBwTable : ℚ := ⟨21, 25, by norm_num, by norm_num⟩

/-- The confidence literal `0.75` (= 3/4) as an exact rational. -/
def confParen : ℚ := ⟨3, 4, by norm_num, by norm_num⟩

/-- The confidence literal `0.62` (= 31/50) as an exact rational. -/
def confToken : ℚ := ⟨31, 50, by norm_num, by norm_num⟩

/-- The ticker-hits dictionary `symbol -> (match_type, confidence)`,
insertion-ordered like a Python dict. -/
abbrev TickerHits := List (String × String × ℚ)

def lookupHits (h : TickerHits) (s : String) : Option (String × ℚ) :=
  (h.find? fun e => e.1 == s).map fun e => e.2

/-- The local `add` closure of `_extract_entry_tickers` (lines 251-256):
ignore unknown symbols; record a new symbol; overwrite an existing entry
only when the new confidence is strictly higher. -/
def addHit (known : List String) (h : TickerHits) (symbol matchType : String)
    (confidence : ℚ) : TickerHits :=
  if symbol ∈ known then
    match h.find? fun e => e.1 == symbol with
    | none => h ++ [(symbol, matchType, confidence)]
    | some e =>
      if confidence > e.2.2 then
        h.map fun e' => if e'.1 == symbol then (symbol, matchType, confidence) else e'
      else h
  else h

/-- The context step (lines 258-263): only a single-symbol `s=` context is
trusted. -/
def contextHits (known : List String) (ctx : List String) : TickerHits :=
  match ctx with
  | [s] => addHit known [] s "context" confContext
  | _ => []

/-- `" ".join([title or "", summary or "", link or ""])` (line 265). -/
def joinedText (title summary link : String) : String :=
  String.intercalate " " [title, summary, link]

/-- `_extract_entry_tickers` (ingestion.py lines 240-282). -/
def extractEntryTickers (title summary link : String) (feedUrl : UrlParts)
    (knownSymbols : List String) (includeToken : Bool) : TickerHits :=
  let hits1 := contextHits knownSymbols (parseContextSymbols feedUrl)
  let text := joinedText title summary link
  let hits2 := (exchangeFindall text.data).foldl
    (fun h s => addHit knownSymbols h (pyUpper s) "exchange" confExchange) hits1
  let hits3 := (parenFindall text.data).foldl
    (fun h s => addHit knownSymbols h (pyUpper s) "paren" confParen) hits2
  if includeToken then
    (tokenFindall text.data).foldl
      (fun h s =>
        let upper := pyUpper s
        if upper ∈ STOPWORDS then h
        else if upper ∈ ambiguousTokenSymbols then h
        else addHit knownSymbols h upper "token" confToken) hits3
  else hits3

end NewsResearch

namespace NewsResearch

/-- The exact-rational confidence constants carry the decimal values of the
source literals. -/
theorem confidence_values :
    confContext = 93 / 100 ∧ confExchange = 88 / 100 ∧ confBwTable = 84 / 100 ∧
    confParen = 75 / 100 ∧ confToken = 62 / 100 := by
  refine ⟨?_, ?_, ?_, ?_, ?_⟩ <;>
    · first
      | (show Rat.mk' _ _ _ _ = _
         rw [Rat.mk'_eq_divInt, Rat.divInt_eq_div]
         norm_num)

/-- Sanity: repository test `test_single_symbol_context_is_allowed`. -/
theorem extract_single_context_sanity :
    extractEntryTickers "Monthly portfolio commentary" "No explicit symbol in text."
      "https://example.com/story" ⟨"https", "feeds.finance.yahoo.com", "/rss/2.0/headline",
        [("s", "GOF")], ""⟩ ["GOF", "UTF"] true =
      [("GOF", "context", confContext)] := by decide

/-- Sanity: repository test `test_multi_symbol_context_does_not_mass_assign`. -/
theorem extract_multi_context_sanity :
    lookupHits (extractEntryTickers "GOF monthly update" "Distribution policy unchanged."
      "https://example.com/story" ⟨"https", "feeds.finance.yahoo.com", "/rss/2.0/headline",
        [("s", "GOF,UTF,PDI")], ""⟩ ["GOF", "UTF", "PDI"] true) "GOF" =
        some ("token", confToken) ∧
    lookupHits (extractEntryTickers "GOF monthly update" "Distribution policy unchanged."
      "https://example.com/story" ⟨"https", "feeds.finance.yahoo.com", "/rss/2.0/headline",
        [("s", "GOF,UTF,PDI")], ""⟩ ["GOF", "UTF", "PDI"] true) "UTF" = none := by
  refine ⟨by decide, by decide⟩

set_option maxRecDepth 4000 in
/-- Sanity: repository test `test_extract_tickers_from_context_and_text`
(paren and exchange heuristics). -/
theorem extract_paren_exchange_sanity :
    lookupHits (extractEntryTickers "Fund update for (GOF) and NYSE: UTF"
      "The manager also mentioned AAPL in a comparison section."
      "https://example.com/story" ⟨"https", "feeds.finance.yahoo.com", "/rss/2.0/headline",
        [("s", "GOF,UTF")], ""⟩ ["GOF", "UTF", "AAPL"] true) "GOF" =
        some ("paren", confParen) ∧
    lookupHits (extractEntryTickers "Fund update for (GOF) and NYSE: UTF"
      "The manager also mentioned AAPL in a comparison section."
      "https://example.com/story" ⟨"https", "feeds.finance.yahoo.com", "/rss/2.0/headline",
        [("s", "GOF,UTF")], ""⟩ ["GOF", "UTF", "AAPL"] true) "UTF" =
        some ("exchange", confExchange) := by
  refine ⟨by decide, by decide⟩

end NewsResearch

namespace NewsResearch

/-! ## Lemmas about the ticker-hits dictionary (claims C4 and C8) -/

theorem find?_append_of_none {α} (p : α → Bool) {l₁ : List α} (l₂ : List α)
    (h : l₁.find? p = none) : (l₁ ++ l₂).find? p = l₂.find? p := by
  induction l₁ with
  | nil => rfl
  | cons a t ih =>
    cases hpa : p a with
    | true => rw [List.find?_cons_of_pos _ hpa] at h; exact absurd h (by simp)
    | false =>
      have hpa' : ¬ p a = true := by rw [hpa]; exact Bool.false_ne_true
      rw [List.find?_cons_of_neg _ hpa'] at h
      rw [List.cons_append, List.find?_cons_of_neg _ hpa']
      exact ih h

theorem find?_append_of_some {α} (p : α → Bool) {l₁ : List α} (l₂ : List α) {e : α}
    (h : l₁.find? p = some e) : (l₁ ++ l₂).find? p = some e := by
  induction l₁ with
  | nil => exact absurd h (by simp)
  | cons a t ih =>
    cases hpa : p a with
    | true =>
      rw [List.find?_cons_of_pos _ hpa] at h
      rw [List.cons_append, List.find?_cons_of_pos _ hpa]
      exact h
    | false =>
      have hpa' : ¬ p a = true := by rw [hpa]; exact Bool.false_ne_true
      rw [List.find?_cons_of_neg _ hpa'] at h
      rw [List.cons_append, List.find?_cons_of_neg _ hpa']
      exact ih h

theorem find?_map_of_pres {α} (f : α → α) (p : α → Bool) (l : List α)
    (hp : ∀ e, p (f e) = p e) : (l.map f).find? p = (l.find? p).map f := by
  induction l with
  | nil => rfl
  | cons a t ih =>
    cases hpa : p a with
    | true =>
      rw [List.map_cons, List.find?_cons_of_pos _ ((hp a).trans hpa),
        List.find?_cons_of_pos _ hpa, Option.map_some']
    | false =>
      rw [List.map_cons, List.find?_cons_of_neg _ (by rw [hp a, hpa]; exact Bool.false_ne_true),
        List.find?_cons_of_neg _ (by rw [hpa]; exact Bool.false_ne_true)]
      exact ih

theorem addHit_not_known {known : List String} {h : TickerHits} {s mt : String} {c : ℚ}
    (hk : s ∉ known) : addHit known h s mt c = h := by
  simp only [addHit, if_neg hk]

theorem addHit_no_upgrade {known : List String} {h : TickerHits} {s mt : String} {c : ℚ}
    {e : String × String × ℚ} (hf : h.find? (fun e => e.1 == s) = some e)
    (hc : ¬ c > e.2.2) : addHit known h s mt c = h := by
  by_cases hk : s ∈ known
  · simp only [addHit, if_pos hk, hf, if_neg hc]
  · simp only [addHit, if_neg hk]

theorem addHit_of_find_none {known : List String} {h : TickerHits} {s mt : String} {c : ℚ}
    (hk : s ∈ known) (hn : h.find? (fun e => e.1 == s) = none) :
    addHit known h s mt c = h ++ [(s, mt, c)] := by
  simp only [addHit, if_pos hk, hn]

theorem lookupHits_addHit_self_of_none {known : List String} {h : TickerHits} {s mt : String}
    {c : ℚ} (hk : s ∈ known) (hn : h.find? (fun e => e.1 == s) = none) :
    lookupHits (addHit known h s mt c) s = some (mt, c) := by
  rw [addHit_of_find_none hk hn]
  unfold lookupHits
  rw [find?_append_of_none _ _ hn]
  simp [List.find?]

theorem lookupHits_addHit_preserve {known : List String} {h : TickerHits} {s s' mt mt0 : String}
    {c c0 : ℚ} (hl : lookupHits h s = some (mt0, c0)) (hc : c ≤ c0) :
    lookupHits (addHit known h s' mt c) s = some (mt0, c0) := by
  obtain ⟨e0, hfe0, he0⟩ : ∃ e0, h.find? (fun e => e.1 == s) = some e0 ∧ e0.2 = (mt0, c0) := by
    unfold lookupHits at hl
    cases hfe : h.find? (fun e => e.1 == s) with
    | none => rw [hfe] at hl; exact absurd hl (by simp)
    | some e0 => rw [hfe] at hl; exact ⟨e0, rfl, by simpa using hl⟩
  by_cases hk : s' ∈ known
  · cases hf : h.find? (fun e => e.1 == s') with
    | none =>
      rw [addHit_of_find_none hk hf]
      unfold lookupHits
      rw [find?_append_of_some _ _ hfe0, Option.map_some', he0]
    | some e =>
      by_cases hgt : c > e.2.2
      · by_cases hss : s' = s
        · subst hss
          rw [hfe0] at hf
          obtain rfl : e0 = e := by injection hf
          rw [he0] at hgt
          exact absurd hgt (not_lt.mpr hc)
        · have hs0 : e0.1 = s := by
            have := List.find?_some hfe0
            simpa using this
          simp only [addHit, if_pos hk, hf, if_pos hgt]
          unfold lookupHits
          rw [find?_map_of_pres _ _ _ ?hpres]
          case hpres =>
            intro e'
            by_cases h1 : e'.1 = s'
            · rw [if_pos (show (e'.1 == s') = true by simpa using h1)]
              simp [h1]
            · rw [if_neg (show ¬ (e'.1 == s') = true by simpa using h1)]
          rw [hfe0, Option.map_some', Option.map_some']
          have : (if e0.1 == s' then (s', mt, c) else e0) = e0 := by
            refine if_neg ?_
            rw [hs0]
            simp only [beq_iff_eq]
            exact fun hq => hss hq.symm
          rw [this, he0]
      · rw [addHit_no_upgrade hf hgt]; exact hl
  · rw [addHit_not_known hk]; exact hl

theorem lookupHits_addHit_ne {known : List String} {h : TickerHits} {s s' mt : String}
    {c : ℚ} (hne : s' ≠ s) :
    lookupHits (addHit known h s' mt c) s = lookupHits h s := by
  by_cases hk : s' ∈ known
  · cases hf : h.find? (fun e => e.1 == s') with
    | none =>
      rw [addHit_of_find_none hk hf]
      unfold lookupHits
      cases hfe : h.find? (fun e => e.1 == s) with
      | none =>
        rw [find?_append_of_none _ _ hfe]
        simp [List.find?, show (s' == s) = false by simpa using hne]
      | some e0 => rw [find?_append_of_some _ _ hfe]
    | some e =>
      by_cases hgt : c > e.2.2
      · simp only [addHit, if_pos hk, hf, if_pos hgt]
        unfold lookupHits
        rw [find?_map_of_pres _ _ _ ?hpres]
        case hpres =>
          intro e'
          by_cases h1 : e'.1 = s'
          · rw [if_pos (show (e'.1 == s') = true by simpa using h1)]
            simp [h1]
          · rw [if_neg (show ¬ (e'.1 == s') = true by simpa using h1)]
        cases hfe : h.find? (fun e => e.1 == s) with
        | none => simp
        | some e0 =>
          have hs0 : e0.1 = s := by
            have := List.find?_some hfe
            simpa using this
          simp only [Option.map_some']
          have : (if e0.1 == s' then (s', mt, c) else e0) = e0 := by
            refine if_neg ?_
            rw [hs0]
            simp only [beq_iff_eq]
            exact fun hq => hne hq.symm
          rw [this]
      · rw [addHit_no_upgrade hf hgt]
  · rw [addHit_not_known hk]

theorem foldl_eq_self {α β} {f : β → α → β} {b : β} :
    ∀ {l : List α}, (∀ x ∈ l, f b x = b) → l.foldl f b = b := by
  intro l
  induction l with
  | nil => intro _; rfl
  | cons a t ih =>
    intro h
    rw [List.foldl_cons, h a (List.mem_cons_self a t)]
    exact ih fun x hx => h x (List.mem_cons_of_mem a hx)

theorem foldl_addHit_preserve {known : List String} {mt : String} {c : ℚ} (f : String → String) :
    ∀ (xs : List String) {h : TickerHits} {s mt0 : String} {c0 : ℚ},
      lookupHits h s = some (mt0, c0) → c ≤ c0 →
      lookupHits (xs.foldl (fun h x => addHit known h (f x) mt c) h) s = some (mt0, c0) := by
  intro xs
  induction xs with
  | nil => intro h s mt0 c0 hl _; exact hl
  | cons y ys ih =>
    intro h s mt0 c0 hl hc
    rw [List.foldl_cons]
    exact ih (lookupHits_addHit_preserve hl hc) hc

theorem foldl_addHit_mem {known : List String} {mt : String} {c : ℚ} (f : String → String) :
    ∀ (xs : List String) (h : TickerHits) {s : String}, s ∈ known →
      (∃ x ∈ xs, f x = s) → lookupHits h s = none →
      lookupHits (xs.foldl (fun h x => addHit known h (f x) mt c) h) s = some (mt, c) := by
  intro xs
  induction xs with
  | nil =>
    intro h s _ hex _
    rcases hex with ⟨x, hx, _⟩
    exact absurd hx (List.not_mem_nil x)
  | cons y ys ih =>
    intro h s hk hex hnone
    rw [List.foldl_cons]
    by_cases hy : f y = s
    · have h1 : lookupHits (addHit known h (f y) mt c) s = some (mt, c) := by
        rw [hy]
        refine lookupHits_addHit_self_of_none hk ?_
        unfold lookupHits at hnone
        exact Option.map_eq_none'.mp hnone
      exact foldl_addHit_preserve f ys h1 (le_refl c)
    · rcases hex with ⟨x, hx, hfx⟩
      rcases List.mem_cons.mp hx with rfl | hx'
      · exact absurd hfx hy
      · have h1 : lookupHits (addHit known h (f y) mt c) s = none := by
          rw [lookupHits_addHit_ne hy]; exact hnone
        exact ih _ hk ⟨x, hx', hfx⟩ h1

theorem foldl_token_preserve {known : List String} :
    ∀ (xs : List String) {h : TickerHits} {s mt0 : String} {c0 : ℚ},
      lookupHits h s = some (mt0, c0) → confToken ≤ c0 →
      lookupHits (xs.foldl (fun h x =>
        let upper := pyUpper x
        if upper ∈ STOPWORDS then h
        else if upper ∈ ambiguousTokenSymbols then h
        else addHit known h upper "token" confToken) h) s = some (mt0, c0) := by
  intro xs
  induction xs with
  | nil => intro h s mt0 c0 hl _; exact hl
  | cons y ys ih =>
    intro h s mt0 c0 hl hc
    rw [List.foldl_cons]
    refine ih ?_ hc
    dsimp only
    by_cases h1 : pyUpper y ∈ STOPWORDS
    · rw [if_pos h1]; exact hl
    · rw [if_neg h1]
      by_cases h2 : pyUpper y ∈ ambiguousTokenSymbols
      · rw [if_pos h2]; exact hl
      · rw [if_neg h2]; exact lookupHits_addHit_preserve hl hc

theorem contextHits_single {known : List String} {sym : String} (hk : sym ∈ known) :
    contextHits known [sym] = [(sym, "context", confContext)] := by
  simp only [contextHits, addHit, if_pos hk, List.find?_nil, List.nil_append]

theorem contextHits_eq_nil_of_length_ne_one {known : List String} {ctx : List String}
    (h : ctx.length ≠ 1) : contextHits known ctx = [] := by
  match ctx with
  | [] => rfl
  | [a] => exact absurd rfl h
  | a :: b :: t => rfl

theorem addHit_upgrade {known : List String} {h : TickerHits} {s mt : String} {c : ℚ}
    {e : String × String × ℚ} (hk : s ∈ known) (hf : h.find? (fun e => e.1 == s) = some e)
    (hgt : c > e.2.2) :
    addHit known h s mt c = h.map fun e' => if e'.1 == s then (s, mt, c) else e' := by
  simp only [addHit, if_pos hk, hf, if_pos hgt]

/-- No entry of the hits dictionary pairs an ambiguous symbol with the
`token` match type. -/
def noAmbiguousTokenEntry (h : TickerHits) : Prop :=
  ∀ e ∈ h, e.1 ∈ ambiguousTokenSymbols → e.2.1 ≠ "token"

theorem noAmbiguousTokenEntry_nil : noAmbiguousTokenEntry [] := by
  intro e he
  exact absurd he (List.not_mem_nil e)

theorem addHit_pres_amb {known : List String} {h : TickerHits} {s mt : String} {c : ℚ}
    (H : noAmbiguousTokenEntry h) (hs : mt ≠ "token" ∨ s ∉ ambiguousTokenSymbols) :
    noAmbiguousTokenEntry (addHit known h s mt c) := by
  by_cases hk : s ∈ known
  · cases hf : h.find? (fun e => e.1 == s) with
    | none =>
      rw [addHit_of_find_none hk hf]
      intro e he hamb
      rcases List.mem_append.mp he with he' | he'
      · exact H e he' hamb
      · have he2 : e = (s, mt, c) := by simpa using he'
        subst he2
        rcases hs with h' | h'
        · exact h'
        · exact absurd hamb h'
    | some e0 =>
      by_cases hgt : c > e0.2.2
      · rw [addHit_upgrade hk hf hgt]
        intro e he hamb
        rcases List.mem_map.mp he with ⟨e', he', rfl⟩
        by_cases h1 : (e'.1 == s) = true
        · rw [if_pos h1] at hamb ⊢
          rcases hs with h' | h'
          · exact h'
          · exact absurd hamb h'
        · rw [if_neg h1] at hamb ⊢
          exact H e' he' hamb
      · rw [addHit_no_upgrade hf hgt]; exact H
  · rw [addHit_not_known hk]; exact H

theorem foldl_pres_inv {α β} (Inv : β → Prop) (step : β → α → β)
    (hstep : ∀ b x, Inv b → Inv (step b x)) :
    ∀ (xs : List α) (b : β), Inv b → Inv (xs.foldl step b) := by
  intro xs
  induction xs with
  | nil => intro b hb; exact hb
  | cons y ys ih => intro b hb; rw [List.foldl_cons]; exact ih _ (hstep b y hb)

theorem contextHits_amb (known ctx : List String) :
    noAmbiguousTokenEntry (contextHits known ctx) := by
  match ctx with
  | [] => exact noAmbiguousTokenEntry_nil
  | [s] => exact addHit_pres_amb noAmbiguousTokenEntry_nil (Or.inl (by decide))
  | a :: b :: t => exact noAmbiguousTokenEntry_nil

theorem extract_amb (title summary link : String) (feedUrl : UrlParts)
    (known : List String) (includeToken : Bool) :
    noAmbiguousTokenEntry (extractEntryTickers title summary link feedUrl known includeToken) := by
  simp only [extractEntryTickers]
  have h1 := contextHits_amb known (parseContextSymbols feedUrl)
  have h2 := foldl_pres_inv noAmbiguousTokenEntry
    (fun (b : TickerHits) (x : String) => addHit known b (pyUpper x) "exchange" confExchange)
    (fun b x hb => addHit_pres_amb hb (Or.inl (by decide)))
    (exchangeFindall (joinedText title summary link).data) _ h1
  have h3 := foldl_pres_inv noAmbiguousTokenEntry
    (fun (b : TickerHits) (x : String) => addHit known b (pyUpper x) "paren" confParen)
    (fun b x hb => addHit_pres_amb hb (Or.inl (by decide)))
    (parenFindall (joinedText title summary link).data) _ h2
  cases includeToken with
  | false => exact h3
  | true =>
    exact foldl_pres_inv noAmbiguousTokenEntry
      (fun (b : TickerHits) (x : String) =>
        if pyUpper x ∈ STOPWORDS then b
        else if pyUpper x ∈ ambiguousTokenSymbols then b
        else addHit known b (pyUpper x) "token" confToken)
      (fun b x hb => by
        dsimp only
        by_cases hst : pyUpper x ∈ STOPWORDS
        · rw [if_pos hst]; exact hb
        · rw [if_neg hst]
          by_cases hab : pyUpper x ∈ ambiguousTokenSymbols
          · rw [if_pos hab]; exact hb
          · rw [if_neg hab]; exact addHit_pres_amb hb (Or.inr hab))
      (tokenFindall (joinedText title summary link).data) _ h3

/-! ## Lemmas for URL canonicalization (claim C7) -/

/-- Whether `l` ends with `suf` (Python `str.endswith`). -/
def endsWithChars (l suf : List Char) : Bool :=
  (dropPrefixIfAux suf.reverse l.reverse).isSome

/-- Whether a netloc carries one of the two explicit default ports the code
strips. -/
def hasDefaultPortSuffix (n : String) : Bool :=
  endsWithChars n.data ":80".data || endsWithChars n.data ":443".data

theorem dropPrefixIfAux_append (p r : List Char) :
    dropPrefixIfAux p (p ++ r) = some r := by
  induction p with
  | nil => rfl
  | cons c cs ih => simp [dropPrefixIfAux, ih]

theorem stripSuffixOnce_append (x suf : List Char) :
    stripSuffixOnce (x ++ suf) suf = x := by
  unfold stripSuffixOnce
  rw [List.reverse_append, dropPrefixIfAux_append]
  simp

theorem stripSuffixOnce_of_not_endsWith (x suf : List Char)
    (h : endsWithChars x suf = false) : stripSuffixOnce x suf = x := by
  unfold endsWithChars at h
  unfold stripSuffixOnce
  cases hd : dropPrefixIfAux suf.reverse x.reverse with
  | none => rfl
  | some r => rw [hd] at h; simp at h

theorem stripDefaultPort_of_no_suffix (x : List Char)
    (h80 : endsWithChars x ":80".data = false)
    (h443 : endsWithChars x ":443".data = false) :
    stripDefaultPort x = x := by
  unfold stripDefaultPort
  rw [stripSuffixOnce_of_not_endsWith x _ h80, stripSuffixOnce_of_not_endsWith x _ h443]

theorem stripDefaultPort_append_80 (x : List Char)
    (h443 : endsWithChars x ":443".data = false) :
    stripDefaultPort (x ++ ":80".data) = x := by
  unfold stripDefaultPort
  rw [stripSuffixOnce_append, stripSuffixOnce_of_not_endsWith x _ h443]

theorem stripDefaultPort_append_443 (x : List Char) :
    stripDefaultPort (x ++ ":443".data) = x := by
  unfold stripDefaultPort
  have h80 : endsWithChars (x ++ ":443".data) ":80".data = false := by
    unfold endsWithChars
    rw [List.reverse_append]
    simp [dropPrefixIfAux]
  rw [stripSuffixOnce_of_not_endsWith _ _ h80, stripSuffixOnce_append]

theorem sortPairs_eq_of_perm {l1 l2 : List (String × String)} (h : l1.Perm l2) :
    sortPairs l1 = sortPairs l2 :=
  List.eq_of_perm_of_sorted
    ((List.perm_insertionSort pairLe l1).trans (h.trans (List.perm_insertionSort pairLe l2).symm))
    (List.sorted_insertionSort pairLe l1) (List.sorted_insertionSort pairLe l2)

/-- **C7**: URLs that differ only in the presence of tracking query
parameters (exact-set keys or prefix-matched keys), only in the order of
their query parameters, or only in an explicit default port (`:80` for http,
`:443` for https) canonicalize to the identical string.  The query condition
is stated as: the retained (non-blank, non-tracking) key/value pairs of the
two URLs are permutations of each other — which is exactly what adding or
removing tracking parameters and reordering leaves invariant. -/
theorem c7_canonicalizeUrl_invariance (u1 u2 : UrlParts)
    (hscheme : u1.scheme = u2.scheme)
    (hpath : u1.path = u2.path)
    (hnet : u1.netloc = u2.netloc ∨
      (hasDefaultPortSuffix (pyLower u1.netloc) = false ∧
        ((canonScheme u1.scheme = "http" ∧ pyLower u2.netloc = pyLower u1.netloc ++ ":80") ∨
         (canonScheme u1.scheme = "https" ∧ pyLower u2.netloc = pyLower u1.netloc ++ ":443"))))
    (hquery : ((u1.query.filter fun kv => kv.2 != "").filter fun kv => !isTrackingKey kv.1).Perm
              ((u2.query.filter fun kv => kv.2 != "").filter fun kv => !isTrackingKey kv.1)) :
    canonicalizeUrl u1 = canonicalizeUrl u2 := by
  have hn : canonNetloc u1.netloc = canonNetloc u2.netloc := by
    rcases hnet with h | ⟨hno, hcase⟩
    · rw [h]
    · have hno80 : endsWithChars (pyLower u1.netloc).data ":80".data = false := by
        unfold hasDefaultPortSuffix at hno
        exact (Bool.or_eq_false_iff.mp hno).1
      have hno443 : endsWithChars (pyLower u1.netloc).data ":443".data = false := by
        unfold hasDefaultPortSuffix at hno
        exact (Bool.or_eq_false_iff.mp hno).2
      have h1 : canonNetloc u1.netloc = ⟨(pyLower u1.netloc).data⟩ := by
        unfold canonNetloc
        rw [stripDefaultPort_of_no_suffix _ hno80 hno443]
      rcases hcase with ⟨_, h2⟩ | ⟨_, h2⟩
      · have : canonNetloc u2.netloc = ⟨(pyLower u1.netloc).data⟩ := by
          unfold canonNetloc
          rw [h2, String.data_append, stripDefaultPort_append_80 _ hno443]
        rw [h1, this]
      · have : canonNetloc u2.netloc = ⟨(pyLower u1.netloc).data⟩ := by
          unfold canonNetloc
          rw [h2, String.data_append, stripDefaultPort_append_443]
        rw [h1, this]
  have hq : sortPairs ((u1.query.filter fun kv => kv.2 != "").filter fun kv => !isTrackingKey kv.1)
      = sortPairs ((u2.query.filter fun kv => kv.2 != "").filter fun kv => !isTrackingKey kv.1) :=
    sortPairs_eq_of_perm hquery
  simp only [canonicalizeUrl]
  rw [hscheme, hpath, hn, hq]

def c7SampleA : UrlParts :=
  ⟨"https", "finance.yahoo.com", "/news/example",
    [("utm_source", "x"), ("tsrc", "rss"), ("id", "7")], ""⟩

def c7SampleB : UrlParts :=
  ⟨"https", "finance.yahoo.com:443", "/news/example", [("id", "7")], ""⟩

/-- Witness for C7: the tracking-parameter test URL from the repository,
against the same URL with tracking parameters removed and an explicit `:443`
port added. -/
theorem c7_canonicalizeUrl_invariance_witness :
    (c7SampleA.scheme = c7SampleB.scheme ∧
     c7SampleA.path = c7SampleB.path ∧
     (hasDefaultPortSuffix (pyLower c7SampleA.netloc) = false ∧
       canonScheme c7SampleA.scheme = "https" ∧
       pyLower c7SampleB.netloc = pyLower c7SampleA.netloc ++ ":443") ∧
     ((c7SampleA.query.filter fun kv => kv.2 != "").filter fun kv => !isTrackingKey kv.1).Perm
       ((c7SampleB.query.filter fun kv => kv.2 != "").filter fun kv => !isTrackingKey kv.1)) ∧
    canonicalizeUrl c7SampleA = canonicalizeUrl c7SampleB :=
  ⟨⟨by decide, by decide, ⟨by decide, by decide, by decide⟩, by decide⟩,
    c7_canonicalizeUrl_invariance c7SampleA c7SampleB (by decide) (by decide)
      (Or.inr ⟨by decide, Or.inr ⟨by decide, by decide⟩⟩) (by decide)⟩

/-- **C4**: (1) for a feed URL whose `s=` parameter names exactly one symbol
that is in the active-symbol set, and whose entry text carries no other
ticker signal (no exchange-pattern or paren-pattern hit naming a different
known symbol, no bare token naming a different known non-stopword symbol),
the matcher returns exactly `{sym: (context, 0.93)}`; (2) for a feed URL
whose `s=` parameter names two or more symbols, the result is identical to
extraction with no feed-URL query at all — no symbol is ever attributed from
the URL context, so a listed symbol is matched only by independently
appearing in the entry's text. -/
theorem c4_context_attribution :
    (∀ (title summary link : String) (feedUrl : UrlParts) (known : List String) (sym : String),
      parseContextSymbols feedUrl = [sym] →
      sym ∈ known →
      (∀ x ∈ exchangeFindall (joinedText title summary link).data,
        pyUpper x ∈ known → pyUpper x = sym) →
      (∀ x ∈ parenFindall (joinedText title summary link).data,
        pyUpper x ∈ known → pyUpper x = sym) →
      (∀ x ∈ tokenFindall (joinedText title summary link).data, pyUpper x ∈ known →
        pyUpper x ∈ STOPWORDS ∨ pyUpper x ∈ ambiguousTokenSymbols ∨ pyUpper x = sym) →
      extractEntryTickers title summary link feedUrl known true =
        [(sym, "context", 93 / 100)]) ∧
    (∀ (title summary link : String) (feedUrl : UrlParts) (known : List String)
        (includeToken : Bool),
      2 ≤ (parseContextSymbols feedUrl).length →
      extractEntryTickers title summary link feedUrl known includeToken =
        extractEntryTickers title summary link
          { feedUrl with query := [] } known includeToken) := by
  constructor
  · intro title summary link feedUrl known sym hctx hk hex hpar htok
    have hfind : List.find? (fun e => e.1 == sym) [(sym, "context", confContext)] =
        some (sym, "context", confContext) := by
      simp [List.find?]
    simp only [extractEntryTickers]
    rw [hctx, contextHits_single hk]
    have e2 : (exchangeFindall (joinedText title summary link).data).foldl
        (fun h s => addHit known h (pyUpper s) "exchange" confExchange)
        [(sym, "context", confContext)] = [(sym, "context", confContext)] := by
      refine foldl_eq_self ?_
      intro x hx
      by_cases hk' : pyUpper x ∈ known
      · rw [hex x hx hk']
        exact addHit_no_upgrade hfind (show ¬ confExchange > confContext by decide)
      · exact addHit_not_known hk'
    have e3 : (parenFindall (joinedText title summary link).data).foldl
        (fun h s => addHit known h (pyUpper s) "paren" confParen)
        [(sym, "context", confContext)] = [(sym, "context", confContext)] := by
      refine foldl_eq_self ?_
      intro x hx
      by_cases hk' : pyUpper x ∈ known
      · rw [hpar x hx hk']
        exact addHit_no_upgrade hfind (show ¬ confParen > confContext by decide)
      · exact addHit_not_known hk'
    have e4 : (tokenFindall (joinedText title summary link).data).foldl
        (fun h s =>
          if pyUpper s ∈ STOPWORDS then h
          else if pyUpper s ∈ ambiguousTokenSymbols then h
          else addHit known h (pyUpper s) "token" confToken)
        [(sym, "context", confContext)] = [(sym, "context", confContext)] := by
      refine foldl_eq_self ?_
      intro x hx
      dsimp only
      by_cases h1 : pyUpper x ∈ STOPWORDS
      · rw [if_pos h1]
      · rw [if_neg h1]
        by_cases h2 : pyUpper x ∈ ambiguousTokenSymbols
        · rw [if_pos h2]
        · rw [if_neg h2]
          by_cases hk' : pyUpper x ∈ known
          · rcases htok x hx hk' with h3 | h3 | h3
            · exact absurd h3 h1
            · exact absurd h3 h2
            · rw [h3]
              exact addHit_no_upgrade hfind (show ¬ confToken > confContext by decide)
          · exact addHit_not_known hk'
    rw [e2, e3]
    rw [show ((93 : ℚ) / 100) = confContext from (confidence_values.1).symm]
    exact e4
  · intro title summary link feedUrl known includeToken hlen
    simp only [extractEntryTickers]
    rw [contextHits_eq_nil_of_length_ne_one (by omega)]
    rw [show parseContextSymbols { feedUrl with query := [] } = [] from rfl]
    rw [show contextHits known ([] : List String) = [] from rfl]

def sampleYahooSingleUrl : UrlParts :=
  ⟨"https", "feeds.finance.yahoo.com", "/rss/2.0/headline", [("s", "GOF")], ""⟩

def sampleYahooMultiUrl : UrlParts :=
  ⟨"https", "feeds.finance.yahoo.com", "/rss/2.0/headline", [("s", "GOF,UTF,PDI")], ""⟩

/-- Witness for C4: the single-symbol and the three-symbol feed URLs of the
repository's tests. -/
theorem c4_context_attribution_witness :
    (parseContextSymbols sampleYahooSingleUrl = ["GOF"] ∧
     "GOF" ∈ ["GOF", "UTF"] ∧
     extractEntryTickers "Monthly portfolio commentary" "No explicit symbol in text."
       "https://example.com/story" sampleYahooSingleUrl ["GOF", "UTF"] true =
       [("GOF", "context", 93 / 100)]) ∧
    (2 ≤ (parseContextSymbols sampleYahooMultiUrl).length ∧
     extractEntryTickers "GOF monthly update" "Distribution policy unchanged."
       "https://example.com/story" sampleYahooMultiUrl ["GOF", "UTF", "PDI"] true =
       extractEntryTickers "GOF monthly update" "Distribution policy unchanged."
         "https://example.com/story" { sampleYahooMultiUrl with query := [] }
         ["GOF", "UTF", "PDI"] true) :=
  ⟨⟨by decide, by decide,
    c4_context_attribution.1 "Monthly portfolio commentary" "No explicit symbol in text."
      "https://example.com/story" sampleYahooSingleUrl ["GOF", "UTF"] "GOF"
      (by decide) (by decide) (by decide) (by decide) (by decide)⟩,
   ⟨by decide,
    c4_context_attribution.2 "GOF monthly update" "Distribution policy unchanged."
      "https://example.com/story" sampleYahooMultiUrl ["GOF", "UTF", "PDI"] true
      (by decide)⟩⟩

/-- **C8**: (1) an ambiguous-list symbol ("FUND") is never recorded with the
bare-token match type, whatever the inputs — any recorded entry for it has a
match type other than `token`; (2) when the joined entry text contains
`FUND` after a known exchange prefix (an exchange-pattern hit), `FUND` is in
the active set, and the feed URL carries no context symbols, the matcher
records `FUND` with match type `exchange` and confidence 0.88. -/
theorem c8_ambiguous_fund :
    (∀ (title summary link : String) (feedUrl : UrlParts) (known : List String)
        (includeToken : Bool) (mt : String) (c : ℚ),
      lookupHits (extractEntryTickers title summary link feedUrl known includeToken)
        "FUND" = some (mt, c) →
      mt ≠ "token") ∧
    (∀ (title summary link : String) (feedUrl : UrlParts) (known : List String)
        (includeToken : Bool),
      parseContextSymbols feedUrl = [] →
      "FUND" ∈ known →
      (∃ x ∈ exchangeFindall (joinedText title summary link).data, pyUpper x = "FUND") →
      lookupHits (extractEntryTickers title summary link feedUrl known includeToken)
        "FUND" = some ("exchange", 88 / 100)) := by
  constructor
  · intro title summary link feedUrl known includeToken mt c hl
    unfold lookupHits at hl
    cases hfe : List.find? (fun e => e.1 == "FUND")
        (extractEntryTickers title summary link feedUrl known includeToken) with
    | none => rw [hfe] at hl; exact absurd hl (by simp)
    | some e0 =>
      rw [hfe] at hl
      have he0 : e0.2 = (mt, c) := by simpa using hl
      have hmem := List.mem_of_find?_eq_some hfe
      have hkey : e0.1 = "FUND" := by simpa using List.find?_some hfe
      have hne := extract_amb title summary link feedUrl known includeToken e0 hmem
        (by rw [hkey]; decide)
      rw [he0] at hne
      exact hne
  · intro title summary link feedUrl known includeToken hctx hkF hex
    simp only [extractEntryTickers]
    rw [hctx]
    rw [show contextHits known ([] : List String) = [] from rfl]
    have h2 : lookupHits ((exchangeFindall (joinedText title summary link).data).foldl
        (fun h s => addHit known h (pyUpper s) "exchange" confExchange) [])
        "FUND" = some ("exchange", confExchange) :=
      foldl_addHit_mem pyUpper _ [] hkF hex rfl
    have h3 := @foldl_addHit_preserve known "paren" confParen
      pyUpper (parenFindall (joinedText title summary link).data) _ _ _ _ h2 (by decide)
    rw [show ((88 : ℚ) / 100) = confExchange from (confidence_values.2.1).symm]
    cases includeToken with
    | false => exact h3
    | true =>
      exact @foldl_token_preserve known
        (tokenFindall (joinedText title summary link).data) _ _ _ _ h3 (by decide)

def sampleExchangeTitle : String := "Acquirer announces NYSE: FUND merger update"

/-- Witness for C8: the `NYSE: FUND` headline from the repository's test
`test_extract_entry_tickers_keeps_explicit_fund_symbol`. -/
theorem c8_ambiguous_fund_witness :
    (lookupHits (extractEntryTickers sampleExchangeTitle "" "https://example.com/story"
        ⟨"", "", "", [], ""⟩ ["FUND"] true) "FUND" = some ("exchange", confExchange) ∧
     "exchange" ≠ "token") ∧
    (parseContextSymbols ⟨"", "", "", [], ""⟩ = [] ∧
     "FUND" ∈ ["FUND"] ∧
     (∃ x ∈ exchangeFindall (joinedText sampleExchangeTitle "" "https://example.com/story").data,
        pyUpper x = "FUND") ∧
     lookupHits (extractEntryTickers sampleExchangeTitle "" "https://example.com/story"
        ⟨"", "", "", [], ""⟩ ["FUND"] true) "FUND" = some ("exchange", 88 / 100)) :=
  ⟨⟨by decide,
    c8_ambiguous_fund.1 sampleExchangeTitle "" "https://example.com/story"
      ⟨"", "", "", [], ""⟩ ["FUND"] true "exchange" confExchange (by decide)⟩,
   ⟨by decide, by decide, by decide,
    c8_ambiguous_fund.2 sampleExchangeTitle "" "https://example.com/story"
      ⟨"", "", "", [], ""⟩ ["FUND"] true (by decide) (by decide) (by decide)⟩⟩

end NewsResearch

namespace NewsResearch

/-! ## The deduplication store (`backend/app/ingestion.py` lines 290-453, 519-529)

The `articles` table is a list of `Article` rows; `id` is the primary key
(assigned from a running counter).  SQLAlchemy queries are translated clause
by clause: the unique-hash lookup is `List.find?`, and
`order_by(desc(Article.id)).limit(1)` on the title-window filter is the
maximum-id element of the filtered list.  The `IntegrityError` branches
(lines 358-366, 431-441) fire only when a concurrent writer inserts between
the read and the flush; in the sequential semantics modelled here they are
unreachable, and `_acquire_dedupe_locks` (a no-op outside PostgreSQL) has no
observable effect. -/

def GENERAL_SOURCE_CODE : String := "businesswire"

/-- A row of `articles` (models.py lines 48-63; fields the engine touches). -/
structure Article where
  id : Nat
  canonicalUrl : String
  canonicalUrlHash : String
  title : String
  summary : Option String
  publishedAt : Int
  sourceName : String
  providerName : String
  contentHash : String
  titleNormalizedHash : String
  clusterKey : String
deriving DecidableEq

/-- `_clamp_label` (ingestion.py lines 85-89). -/
def clampLabel (value : Option String) (maxLen : Nat) : String :=
  let text := pyStrip (value.getD "")
  if text.data.length ≤ maxLen then text else ⟨text.data.take maxLen⟩

/-- `db.scalar(select(Article).where(Article.canonical_url_hash == url_hash))`
(the hash column is unique, so at most one row matches). -/
def findByUrlHash (store : List Article) (h : String) : Option Article :=
  store.find? fun a => a.canonicalUrlHash == h

/-- The row with the greatest id (`order_by(desc(Article.id)).limit(1)`). -/
def argmaxId : List Article → Option Article
  | [] => none
  | a :: rest =>
    match argmaxId rest with
    | none => some a
    | some b => if a.id > b.id then some a else some b

/-- `_find_title_window_match` (ingestion.py lines 314-326): the most recent
(greatest-id) Article whose normalized-title hash matches and whose
published time lies inside the given window. -/
def findTitleWindowMatch (store : List Article) (titleHash : String)
    (windowStart windowEnd : Int) : Option Article :=
  argmaxId (store.filter fun a =>
    a.titleNormalizedHash == titleHash &&
      decide (windowStart ≤ a.publishedAt) && decide (a.publishedAt ≤ windowEnd))

/-- Python truthiness of an optional string (`if summary:`). -/
def pyTruthy (o : Option String) : Bool := o.getD "" != ""

/-- The summary-update rule of `_upsert_article` (lines 377-382): an empty
incoming summary never overwrites; an exact-URL match takes the incoming
summary; a fuzzy match takes it only when the stored one is empty or the
incoming one is longer. -/
def updatedSummary (stored incoming : Option String) (matchedByUrl : Bool) : Option String :=
  if pyTruthy incoming then
    if matchedByUrl then incoming
    else if !pyTruthy stored ||
        decide ((incoming.getD "").data.length > (stored.getD "").data.length) then incoming
    else stored
  else stored

/-- The result of `_upsert_article` together with the updated store. -/
structure UpsertResult where
  article : Article
  created : Bool
  matchedByUrl : Bool
  store : List Article
  nextId : Nat
deriving DecidableEq

/-- `_upsert_article` (ingestion.py lines 290-386) in sequential semantics.
`timedelta(hours=48)` is 172800 seconds. -/
def upsertArticle (store : List Article) (nextId : Nat)
    (sourceCode canonicalUrl title : String) (summary : Option String)
    (publishedAt : Int) (sourceName providerName : String) : UpsertResult :=
  let urlHash := sha256Str canonicalUrl
  let titleHash := sha256Str (normalizeTitle title)
  let summaryNorm := normalizeTitle (summary.getD "")
  let contentHash := sha256Str (titleHash ++ "|" ++ (⟨summaryNorm.data.take 300⟩ : String))
  let clusterKey := titleHash
  let sourceName' := clampLabel (some sourceName) 120
  let providerName' := clampLabel (some providerName) 120
  let windowStart := publishedAt - 48 * 3600
  let windowEnd := publishedAt + 48 * 3600
  let byUrl := findByUrlHash store urlHash
  let matchedByUrl := byUrl.isSome
  let resolved :=
    match byUrl with
    | some a => some a
    | none =>
      if sourceCode ≠ GENERAL_SOURCE_CODE then
        findTitleWindowMatch store titleHash windowStart windowEnd
      else none
  match resolved with
  | none =>
    let newArticle : Article :=
      ⟨nextId, canonicalUrl, urlHash, title, summary, publishedAt,
        sourceName', providerName', contentHash, titleHash, clusterKey⟩
    ⟨newArticle, true, matchedByUrl, store ++ [newArticle], nextId + 1⟩
  | some a =>
    let updated : Article := { a with
      title := title
      sourceName := sourceName'
      providerName := providerName'
      contentHash := contentHash
      clusterKey := clusterKey
      summary := updatedSummary a.summary summary matchedByUrl
      publishedAt := if publishedAt > a.publishedAt then publishedAt else a.publishedAt }
    ⟨updated, false, matchedByUrl,
      store.map (fun b => if b.id == a.id then updated else b), nextId⟩

/-- `_should_persist_entry` (ingestion.py lines 285-287). -/
def shouldPersistEntry (sourceCode : String) (tickerHits : TickerHits) : Bool :=
  sourceCode == GENERAL_SOURCE_CODE || !tickerHits.isEmpty

/-- The persistence gate of `ingest_feed` (lines 519-529): the
`allow_existing_unmapped` URL lookup runs only for a non-general-stream
entry with zero hits, and the entry proceeds to the upsert iff
`_should_persist_entry` or that lookup succeeds. -/
def persistGate (store : List Article) (sourceCode link : String)
    (tickerHits : TickerHits) : Bool :=
  let allowExistingUnmapped :=
    tickerHits.isEmpty && sourceCode != GENERAL_SOURCE_CODE &&
      (findByUrlHash store (sha256Str link)).isSome
  shouldPersistEntry sourceCode tickerHits || allowExistingUnmapped

/-- A row of `article_tickers` (models.py lines 68-76). -/
structure TickerRow where
  articleId : Nat
  tickerId : Nat
  matchType : String
  confidence : ℚ
deriving DecidableEq

/-- `symbol_to_id.get(symbol)`. -/
def lookupSymbolId (symbolToId : List (String × Nat)) (sym : String) : Option Nat :=
  (symbolToId.find? fun kv => kv.1 == sym).map fun kv => kv.2

/-- The per-hit loop of `_upsert_article_tickers` (lines 409-445): resolve
the ticker id, insert a missing row, raise an existing row only when the
incoming confidence is strictly higher; the second component accumulates
`resolved_ticker_ids`. -/
def upsertTickersLoop (articleId : Nat) (symbolToId : List (String × Nat)) :
    List (String × String × ℚ) → List TickerRow → List Nat → List TickerRow × List Nat
  | [], rows, resolved => (rows, resolved)
  | (sym, mt, c) :: rest, rows, resolved =>
    match lookupSymbolId symbolToId sym with
    | none => upsertTickersLoop articleId symbolToId rest rows resolved
    | some tid =>
      match rows.find? (fun r => r.tickerId == tid) with
      | none =>
        upsertTickersLoop articleId symbolToId rest
          (rows ++ [⟨articleId, tid, mt, c⟩]) (tid :: resolved)
      | some row =>
        if c > row.confidence then
          upsertTickersLoop articleId symbolToId rest
            (rows.map fun r =>
              if r.tickerId == tid then { r with matchType := mt, confidence := c } else r)
            (tid :: resolved)
        else upsertTickersLoop articleId symbolToId rest rows (tid :: resolved)

/-- `_upsert_article_tickers` (ingestion.py lines 389-453) on the rows of
one article: the early return of lines 398-399, the per-hit loop, then the
`prune_missing` deletion of rows whose ticker id was not resolved. -/
def upsertArticleTickers (articleId : Nat) (existing : List TickerRow)
    (tickerHits : List (String × String × ℚ)) (symbolToId : List (String × Nat))
    (pruneMissing : Bool) : List TickerRow :=
  if tickerHits.isEmpty && !pruneMissing then existing
  else
    let out := upsertTickersLoop articleId symbolToId tickerHits existing []
    if pruneMissing then out.1.filter (fun r => decide (r.tickerId ∈ out.2)) else out.1

/-! ## Page-fallback resolver (`backend/app/ingestion.py` lines 129-185)

`requests.get` is the network boundary: its outcome for the one candidate
fetch is the `fetchResult` argument (`some body` for an `ok` response with a
non-empty body, `none` for any failure — lines 172-182 collapse all
failures to `None`).  The returned Bool records whether that fetch was
performed. -/

def BUSINESSWIRE_PAGE_CACHE_TTL_SECONDS : Int := 6 * 60 * 60

def BUSINESSWIRE_PAGE_FAILURE_CACHE_TTL_SECONDS : Int := 60

def BUSINESSWIRE_PAGE_CACHE_MAX_ITEMS : Nat := 512

/-- `urllib.parse`'s `.hostname`: the part of the netloc after the last `@`
and before the first `:`, lower-cased. -/
def hostnameOf (netloc : String) : String :=
  let afterAt := ((splitCharAux '@' [] netloc.data).getLast?).getD []
  let host := ((splitCharAux ':' [] afterAt).head?).getD []
  pyLower ⟨host⟩

/-- `_is_businesswire_article_url` (ingestion.py lines 135-141). -/
def isBusinesswireArticleUrl (u : UrlParts) : Bool :=
  let scheme := pyLower u.scheme
  let hostname := hostnameOf u.netloc
  if (scheme != "http" && scheme != "https") || hostname == "" then false
  else hostname == "businesswire.com" ||
    endsWithChars hostname.data ".businesswire.com".data

/-- `_canonical_businesswire_article_url` (lines 129-132): the path-only
form — params, query and fragment dropped. -/
def canonicalBusinesswireArticleUrl (u : UrlParts) : UrlParts :=
  ⟨u.scheme, u.netloc, u.path, [], ""⟩

/-- The string form of the path-only URL, used as the cache key. -/
def canonicalBusinesswireUrlString (u : UrlParts) : String :=
  urlunparseStr u.scheme u.netloc u.path ""

/-- A page-cache entry: fetch time and body (`None` for a cached failure). -/
structure CacheEntry where
  fetchedAt : Int
  html : Option String
deriving DecidableEq

/-- `_cache_businesswire_page` (lines 144-150): insert/move the key to the
most-recent end, then evict from the oldest end while over capacity. -/
def cacheBusinesswirePage (cache : List (String × CacheEntry)) (key : String)
    (e : CacheEntry) : List (String × CacheEntry) :=
  let c1 := (cache.filter fun kv => kv.1 != key) ++ [(key, e)]
  if c1.length > BUSINESSWIRE_PAGE_CACHE_MAX_ITEMS then
    c1.drop (c1.length - BUSINESSWIRE_PAGE_CACHE_MAX_ITEMS)
  else c1

/-- `_fetch_businesswire_page_html` (ingestion.py lines 153-185).  Returns
the page body (or `none`), the updated cache, and whether the network fetch
was performed. -/
def fetchBusinesswirePageHtml (u : UrlParts) (cache : List (String × CacheEntry))
    (now : Int) (fetchResult : Option String) :
    Option String × List (String × CacheEntry) × Bool :=
  let key := canonicalBusinesswireUrlString u
  if isBusinesswireArticleUrl (canonicalBusinesswireArticleUrl u) then
    match cache.find? fun kv => kv.1 == key with
    | some kv =>
      let ttl := if kv.2.html.isSome then BUSINESSWIRE_PAGE_CACHE_TTL_SECONDS
        else BUSINESSWIRE_PAGE_FAILURE_CACHE_TTL_SECONDS
      if now - kv.2.fetchedAt ≤ ttl then (kv.2.html, cache, false)
      else (fetchResult, cacheBusinesswirePage cache key ⟨now, fetchResult⟩, true)
    | none => (fetchResult, cacheBusinesswirePage cache key ⟨now, fetchResult⟩, true)
  else (none, cache, false)

/-! ## `parse_datetime` (`backend/app/utils.py` lines 63-83)

`email.utils.parsedate_to_datetime` and `dateutil.parser.parse` are the
parsing boundary: each is an arbitrary function returning `some` datetime or
`none` (for a raised exception).  A datetime is a wall-clock value plus an
optional UTC-offset (minutes); `None` offset is a naive datetime. -/

/-- A Python `datetime`: wall-clock minutes since the epoch in its own
timezone, plus that timezone's UTC offset in minutes (`none` = naive). -/
structure PyDateTime where
  naive : Int
  tzOffsetMinutes : Option Int
deriving DecidableEq

/-- Lines 81-83: naive datetimes are stamped UTC
(`dt.replace(tzinfo=timezone.utc)`), then `dt.astimezone(timezone.utc)`
converts the wall clock to UTC. -/
def toUtc (d : PyDateTime) : PyDateTime :=
  let d1 := if d.tzOffsetMinutes = none then { d with tzOffsetMinutes := some 0 } else d
  ⟨d1.naive - d1.tzOffsetMinutes.getD 0, some 0⟩

/-- The argument of `parse_datetime`: `None`, a `datetime`, or anything
else coerced by `str(value)`. -/
inductive DtInput where
  | pyNone
  | dt (d : PyDateTime)
  | text (s : String)
deriving DecidableEq

/-- `parse_datetime` (utils.py lines 63-83), parameterized by the two
fallible parsers. -/
def parseDatetime (rfcParse duParse : String → Option PyDateTime) :
    DtInput → Option PyDateTime
  | .pyNone => none
  | .dt d => some (toUtc d)
  | .text s =>
    let t := pyStrip s
    if t = "" then none
    else
      match rfcParse t with
      | some d => some (toUtc d)
      | none =>
        match duParse t with
        | some d => some (toUtc d)
        | none => none

end NewsResearch

namespace NewsResearch

/-- **C2**: a feed entry reaches the article-upsert step iff it matched at
least one active ticker, or its source is the general-stream source, or an
Article with its canonical-URL hash already exists; otherwise it is dropped
before any Article is created or updated. -/
theorem c2_persistence_gate (store : List Article) (sourceCode link : String)
    (tickerHits : TickerHits) :
    persistGate store sourceCode link tickerHits = true ↔
      (tickerHits ≠ [] ∨ sourceCode = GENERAL_SOURCE_CODE ∨
        ∃ a, findByUrlHash store (sha256Str link) = some a) := by
  simp only [persistGate, shouldPersistEntry, Bool.or_eq_true, Bool.and_eq_true,
    beq_iff_eq, bne_iff_ne, Bool.not_eq_true', List.isEmpty_eq_true,
    List.isEmpty_eq_false, Option.isSome_iff_exists]
  constructor
  · rintro (⟨h | h⟩ | ⟨⟨h1, h2⟩, a, h3⟩)
    · exact Or.inr (Or.inl h)
    · exact Or.inl h
    · exact Or.inr (Or.inr ⟨a, h3⟩)
  · rintro (h | h | ⟨a, h3⟩)
    · exact Or.inl (Or.inr h)
    · exact Or.inl (Or.inl h)
    · by_cases h1 : tickerHits = []
      · by_cases h2 : sourceCode = GENERAL_SOURCE_CODE
        · exact Or.inl (Or.inl h2)
        · exact Or.inr ⟨⟨h1, h2⟩, a, h3⟩
      · exact Or.inl (Or.inr h1)

/-- **C10**: `parse_datetime` never throws and never returns a naive
datetime: the result is `none` or a UTC datetime (offset 0); a naive
datetime input is assumed UTC with its wall clock unchanged; blank text and
text rejected by both parsers give `none`. -/
theorem c10_parse_datetime_total_utc :
    ∀ (rfcParse duParse : String → Option PyDateTime) (v : DtInput),
      (parseDatetime rfcParse duParse v = none ∨
        ∃ d, parseDatetime rfcParse duParse v = some d ∧ d.tzOffsetMinutes = some 0) ∧
      (∀ d0, v = DtInput.dt d0 → d0.tzOffsetMinutes = none →
        parseDatetime rfcParse duParse v = some ⟨d0.naive, some 0⟩) ∧
      (∀ s, v = DtInput.text s → pyStrip s = "" →
        parseDatetime rfcParse duParse v = none) ∧
      (∀ s, v = DtInput.text s → rfcParse (pyStrip s) = none →
        duParse (pyStrip s) = none → parseDatetime rfcParse duParse v = none) := by
  intro rfcParse duParse v
  refine ⟨?_, ?_, ?_, ?_⟩
  · cases v with
    | pyNone => exact Or.inl rfl
    | dt d => exact Or.inr ⟨toUtc d, rfl, rfl⟩
    | text s =>
      simp only [parseDatetime]
      by_cases ht : pyStrip s = ""
      · rw [if_pos ht]; exact Or.inl rfl
      · rw [if_neg ht]
        cases h1 : rfcParse (pyStrip s) with
        | some d => exact Or.inr ⟨toUtc d, rfl, rfl⟩
        | none =>
          cases h2 : duParse (pyStrip s) with
          | some d => exact Or.inr ⟨toUtc d, rfl, rfl⟩
          | none => exact Or.inl rfl
  · intro d0 hv htz
    subst hv
    simp only [parseDatetime, toUtc, htz]
    simp
  · intro s hv ht
    subst hv
    simp only [parseDatetime]
    rw [if_pos ht]
  · intro s hv h1 h2
    subst hv
    simp only [parseDatetime]
    by_cases ht : pyStrip s = ""
    · rw [if_pos ht]
    · rw [if_neg ht, h1, h2]

/-- A parser that always fails (every input raises). -/
def failParse : String → Option PyDateTime := fun _ => none

/-- Witness for C10: a naive datetime input, blank text, and text rejected
by both parsers. -/
theorem c10_parse_datetime_total_utc_witness :
    ((⟨5, none⟩ : PyDateTime).tzOffsetMinutes = none ∧
      parseDatetime failParse failParse (DtInput.dt ⟨5, none⟩) = some ⟨5, some 0⟩) ∧
    (pyStrip "  " = "" ∧ parseDatetime failParse failParse (DtInput.text "  ") = none) ∧
    (failParse (pyStrip "May 5") = none ∧
      parseDatetime failParse failParse (DtInput.text "May 5") = none) :=
  ⟨⟨rfl, (c10_parse_datetime_total_utc failParse failParse (DtInput.dt ⟨5, none⟩)).2.1
      ⟨5, none⟩ rfl rfl⟩,
   ⟨by decide, (c10_parse_datetime_total_utc failParse failParse (DtInput.text "  ")).2.2.1
      "  " rfl (by decide)⟩,
   ⟨rfl, (c10_parse_datetime_total_utc failParse failParse (DtInput.text "May 5")).2.2.2
      "May 5" rfl rfl rfl⟩⟩

theorem isBusinesswireArticleUrl_characterization {u : UrlParts}
    (h : isBusinesswireArticleUrl u = true) :
    (pyLower u.scheme = "http" ∨ pyLower u.scheme = "https") ∧
    (hostnameOf u.netloc = "businesswire.com" ∨
      endsWithChars (hostnameOf u.netloc).data ".businesswire.com".data = true) := by
  simp only [isBusinesswireArticleUrl] at h
  by_cases hc : ((pyLower u.scheme != "http" && pyLower u.scheme != "https") ||
      hostnameOf u.netloc == "") = true
  · rw [if_pos hc] at h
    exact absurd h Bool.false_ne_true
  · rw [if_neg hc] at h
    constructor
    · simp only [Bool.or_eq_true, Bool.and_eq_true, bne_iff_ne, beq_iff_eq, not_or,
        not_and_or, not_not] at hc
      rcases hc.1 with h1 | h1
      · exact Or.inl h1
      · exact Or.inr h1
    · simpa using h

/-- **C9**: the page-fallback resolver short-circuits to "no result" without
a network fetch for every link whose path-only canonical form is not an
http/https URL on businesswire.com or a subdomain of it; the fetch branch is
reachable only when the scheme is http or https and the host is that domain
or one of its subdomains. -/
theorem c9_businesswire_fetch_guard :
    (∀ (u : UrlParts) (cache : List (String × CacheEntry)) (now : Int)
        (fetchResult : Option String),
      isBusinesswireArticleUrl (canonicalBusinesswireArticleUrl u) = false →
      fetchBusinesswirePageHtml u cache now fetchResult = (none, cache, false)) ∧
    (∀ (u : UrlParts) (cache : List (String × CacheEntry)) (now : Int)
        (fetchResult : Option String),
      (fetchBusinesswirePageHtml u cache now fetchResult).2.2 = true →
      isBusinesswireArticleUrl (canonicalBusinesswireArticleUrl u) = true ∧
      (pyLower u.scheme = "http" ∨ pyLower u.scheme = "https") ∧
      (hostnameOf u.netloc = "businesswire.com" ∨
        endsWithChars (hostnameOf u.netloc).data ".businesswire.com".data = true)) := by
  have part1 : ∀ (u : UrlParts) (cache : List (String × CacheEntry)) (now : Int)
      (fetchResult : Option String),
      isBusinesswireArticleUrl (canonicalBusinesswireArticleUrl u) = false →
      fetchBusinesswirePageHtml u cache now fetchResult = (none, cache, false) := by
    intro u cache now fetchResult h
    simp only [fetchBusinesswirePageHtml, h]
    rfl
  refine ⟨part1, ?_⟩
  intro u cache now fetchResult h
  by_cases hb : isBusinesswireArticleUrl (canonicalBusinesswireArticleUrl u) = true
  · refine ⟨hb, ?_⟩
    exact isBusinesswireArticleUrl_characterization hb
  · have hb' : isBusinesswireArticleUrl (canonicalBusinesswireArticleUrl u) = false :=
      Bool.eq_false_iff.mpr hb
    rw [part1 u cache now fetchResult hb'] at h
    exact absurd h Bool.false_ne_true

def c9EvilUrl : UrlParts := ⟨"https", "evil.example.com", "/news/home/abc", [], ""⟩

def c9BwUrl : UrlParts := ⟨"https", "www.businesswire.com", "/news/home/abc", [("x", "1")], ""⟩

/-- Witness for C9: the non-businesswire host of the repository's test
`test_businesswire_fetch_skips_non_businesswire_hosts`, and a fetch on a
businesswire URL with an empty cache. -/
theorem c9_businesswire_fetch_guard_witness :
    (isBusinesswireArticleUrl (canonicalBusinesswireArticleUrl c9EvilUrl) = false ∧
      fetchBusinesswirePageHtml c9EvilUrl [] 1000 (some "<html>ok</html>") =
        (none, [], false)) ∧
    ((fetchBusinesswirePageHtml c9BwUrl [] 1000 (some "<html>ok</html>")).2.2 = true ∧
      isBusinesswireArticleUrl (canonicalBusinesswireArticleUrl c9BwUrl) = true ∧
      (pyLower c9BwUrl.scheme = "http" ∨ pyLower c9BwUrl.scheme = "https") ∧
      (hostnameOf c9BwUrl.netloc = "businesswire.com" ∨
        endsWithChars (hostnameOf c9BwUrl.netloc).data ".businesswire.com".data = true)) :=
  ⟨⟨by decide, c9_businesswire_fetch_guard.1 c9EvilUrl [] 1000 (some "<html>ok</html>")
      (by decide)⟩,
   ⟨by decide, c9_businesswire_fetch_guard.2 c9BwUrl [] 1000 (some "<html>ok</html>")
      (by decide)⟩⟩

end NewsResearch

namespace NewsResearch

def c5StoredArticle : Article :=
  ⟨1, "https://example.com/story", sha256Str "https://example.com/story", "Old title",
    some "existing summary", 0, "Src", "Prov", "hash",
    sha256Str (normalizeTitle "Old title"), sha256Str (normalizeTitle "Old title")⟩

/-- **C5 counterexample**: an exact-URL re-sight whose incoming entry has no
summary (`None`) leaves the stored summary in place — the stored summary is
not replaced by the incoming one, contradicting "replaced ... 
unconditionally". -/
theorem c5_counterexample :
    (upsertArticle [c5StoredArticle] 2 "yahoo" "https://example.com/story" "New title"
        none 0 "Src" "Prov").matchedByUrl = true ∧
    (upsertArticle [c5StoredArticle] 2 "yahoo" "https://example.com/story" "New title"
        none 0 "Src" "Prov").article.summary = some "existing summary" ∧
    (upsertArticle [c5StoredArticle] 2 "yahoo" "https://example.com/story" "New title"
        none 0 "Src" "Prov").article.summary ≠ none := by
  refine ⟨by decide, by decide, by decide⟩

theorem updatedSummary_fuzzy (stored incoming : Option String) :
    updatedSummary stored incoming false =
      (if pyTruthy incoming &&
          decide ((incoming.getD "").data.length > (stored.getD "").data.length)
       then incoming else stored) := by
  by_cases ht : pyTruthy incoming = true
  · by_cases hs : pyTruthy stored = true
    · by_cases hlen : (incoming.getD "").data.length > (stored.getD "").data.length
      · simp [updatedSummary, ht, hs, hlen]
      · simp [updatedSummary, ht, hs, hlen]
    · have hs' : stored.getD "" = "" := by
        have := Bool.eq_false_iff.mpr (fun hb => hs hb)
        simpa [pyTruthy] using this
      have hlen : (incoming.getD "").data.length > (stored.getD "").data.length := by
        rw [hs']
        have hne : incoming.getD "" ≠ "" := by
          intro hq
          rw [pyTruthy, hq] at ht
          exact absurd ht (by decide)
        have : (incoming.getD "").data ≠ [] := by
          intro hq
          exact hne (show incoming.getD "" = "" from by
            cases hgd : incoming.getD "" with
            | mk l => rw [hgd] at hq; simp at hq; rw [hq])
        simpa using List.length_pos.mpr this
      simp [updatedSummary, ht, hs, hlen]
      rw [if_pos (show (stored.getD "").length < (incoming.getD "").length from hlen)]
  · have ht' : pyTruthy incoming = false := Bool.eq_false_iff.mpr (fun hb => ht hb)
    simp [updatedSummary, ht']

/-- **C5 amended**: on an exact-URL match the stored summary is replaced iff
the incoming summary is non-empty (an empty or absent incoming summary
leaves the stored one); on a fuzzy title-window match it is replaced iff the
incoming summary is non-empty and strictly longer than the stored one. -/
theorem c5_summary_replacement (store : List Article) (nextId : Nat)
    (sourceCode canonicalUrl title : String) (summary : Option String)
    (publishedAt : Int) (sourceName providerName : String) :
    (∀ a, findByUrlHash store (sha256Str canonicalUrl) = some a →
      (upsertArticle store nextId sourceCode canonicalUrl title summary publishedAt
        sourceName providerName).article.summary =
        (if pyTruthy summary then summary else a.summary)) ∧
    (findByUrlHash store (sha256Str canonicalUrl) = none →
      sourceCode ≠ GENERAL_SOURCE_CODE →
      ∀ b, findTitleWindowMatch store (sha256Str (normalizeTitle title))
          (publishedAt - 48 * 3600) (publishedAt + 48 * 3600) = some b →
      (upsertArticle store nextId sourceCode canonicalUrl title summary publishedAt
        sourceName providerName).article.summary =
        (if pyTruthy summary &&
            decide ((summary.getD "").data.length > (b.summary.getD "").data.length)
         then summary else b.summary)) := by
  constructor
  · intro a hfind
    simp only [upsertArticle, hfind]
    by_cases ht : pyTruthy summary = true
    · simp [updatedSummary, ht]
    · have ht' : pyTruthy summary = false := Bool.eq_false_iff.mpr (fun hb => ht hb)
      simp [updatedSummary, ht']
  · intro hnone hsrc b hfuzzy
    simp only [upsertArticle, hnone, if_pos hsrc, hfuzzy]
    exact updatedSummary_fuzzy b.summary summary

def c5OtherArticle : Article :=
  ⟨1, "https://example.com/story", sha256Str "https://example.com/story", "Old title",
    some "short", 0, "Src", "Prov", "hash",
    sha256Str (normalizeTitle "Old title"), sha256Str (normalizeTitle "Old title")⟩

/-- Witness for C5 (amended): an exact-URL re-sight with a non-empty
incoming summary, and a fuzzy re-sight (different URL, same normalized
title, published time inside the window) with a longer incoming summary. -/
theorem c5_summary_replacement_witness :
    (findByUrlHash [c5StoredArticle] (sha256Str "https://example.com/story") =
        some c5StoredArticle ∧
      (upsertArticle [c5StoredArticle] 2 "yahoo" "https://example.com/story" "New title"
        (some "x") 0 "Src" "Prov").article.summary =
        (if pyTruthy (some "x") then some "x" else c5StoredArticle.summary)) ∧
    (findByUrlHash [c5OtherArticle] (sha256Str "https://example.com/other") = none ∧
      "yahoo" ≠ GENERAL_SOURCE_CODE ∧
      findTitleWindowMatch [c5OtherArticle] (sha256Str (normalizeTitle "Old title"))
        (0 - 48 * 3600) (0 + 48 * 3600) = some c5OtherArticle ∧
      (upsertArticle [c5OtherArticle] 2 "yahoo" "https://example.com/other" "Old title"
        (some "a longer incoming summary") 0 "Src" "Prov").article.summary =
        (if pyTruthy (some "a longer incoming summary") &&
            decide (((some "a longer incoming summary").getD "").data.length >
              (c5OtherArticle.summary.getD "").data.length)
         then some "a longer incoming summary" else c5OtherArticle.summary)) :=
  ⟨⟨by decide,
    (c5_summary_replacement [c5StoredArticle] 2 "yahoo" "https://example.com/story"
      "New title" (some "x") 0 "Src" "Prov").1 c5StoredArticle (by decide)⟩,
   ⟨by decide, by decide, by decide,
    (c5_summary_replacement [c5OtherArticle] 2 "yahoo" "https://example.com/other"
      "Old title" (some "a longer incoming summary") 0 "Src" "Prov").2
      (by decide) (by decide) c5OtherArticle (by decide)⟩⟩

end NewsResearch

namespace NewsResearch

theorem argmaxId_eq_none : ∀ {l : List Article}, argmaxId l = none → l = [] := by
  intro l h
  cases l with
  | nil => rfl
  | cons x t =>
    exfalso
    simp only [argmaxId] at h
    split at h
    · exact absurd h (by simp)
    · split at h <;> exact absurd h (by simp)

theorem argmaxId_spec :
    ∀ (l : List Article) (b : Article), argmaxId l = some b →
      b ∈ l ∧ ∀ a ∈ l, a.id ≤ b.id := by
  intro l
  induction l with
  | nil => intro b h; exact absurd h (by simp [argmaxId])
  | cons x t ih =>
    intro b h
    simp only [argmaxId] at h
    split at h
    case h_1 ht =>
      obtain rfl : x = b := by injection h
      have hte : t = [] := argmaxId_eq_none ht
      subst hte
      refine ⟨List.mem_cons_self x [], ?_⟩
      intro a ha
      rcases List.mem_cons.mp ha with rfl | ha2
      · exact le_refl _
      · exact absurd ha2 (List.not_mem_nil a)
    case h_2 c ht =>
      obtain ⟨hc_mem, hc_max⟩ := ih c ht
      split at h
      case isTrue hx =>
        obtain rfl : x = b := by injection h
        refine ⟨List.mem_cons_self x t, ?_⟩
        intro a ha
        rcases List.mem_cons.mp ha with rfl | ha2
        · exact le_refl _
        · exact (hc_max a ha2).trans (le_of_lt hx)
      case isFalse hx =>
        obtain rfl : c = b := by injection h
        refine ⟨List.mem_cons_of_mem x hc_mem, ?_⟩
        intro a ha
        rcases List.mem_cons.mp ha with rfl | ha2
        · exact not_lt.mp hx
        · exact hc_max a ha2

theorem findTitleWindowMatch_spec (store : List Article) (th : String) (ws we : Int)
    (b : Article) (h : findTitleWindowMatch store th ws we = some b) :
    b ∈ store ∧ b.titleNormalizedHash = th ∧ ws ≤ b.publishedAt ∧ b.publishedAt ≤ we ∧
    ∀ a ∈ store, a.titleNormalizedHash = th → ws ≤ a.publishedAt → a.publishedAt ≤ we →
      a.id ≤ b.id := by
  unfold findTitleWindowMatch at h
  obtain ⟨hmem, hmax⟩ := argmaxId_spec _ b h
  have hb := List.mem_filter.mp hmem
  have hprops := hb.2
  simp only [Bool.and_eq_true, beq_iff_eq, decide_eq_true_eq] at hprops
  refine ⟨hb.1, hprops.1.1, hprops.1.2, hprops.2, ?_⟩
  intro a ha h1 h2 h3
  refine hmax a (List.mem_filter.mpr ⟨ha, ?_⟩)
  simp only [Bool.and_eq_true, beq_iff_eq, decide_eq_true_eq]
  exact ⟨⟨h1, h2⟩, h3⟩

/-- **C1**: identity resolution of the upsert engine.  (1) An exact
canonical-URL-hash match always wins: the row found by URL is updated in
place, nothing is created.  (2) Only when the URL lookup finds nothing and
the source is not the general-stream source does the engine fall back to the
title-window match, updating that row.  (3) For the general-stream source
with an unseen URL hash a new Article is always created — even if an
Article with the same title hash inside the ±48h window exists (no
hypothesis about title matches appears).  (4) The title-window match is the
most recent (greatest-id) Article whose normalized-title hash equals the
entry's and whose published time lies within 48 hours either side. -/
theorem c1_identity_resolution :
    (∀ (store : List Article) (nextId : Nat) (sourceCode canonicalUrl title : String)
        (summary : Option String) (publishedAt : Int) (sourceName providerName : String)
        (a : Article),
      findByUrlHash store (sha256Str canonicalUrl) = some a →
      (upsertArticle store nextId sourceCode canonicalUrl title summary publishedAt
        sourceName providerName).created = false ∧
      (upsertArticle store nextId sourceCode canonicalUrl title summary publishedAt
        sourceName providerName).matchedByUrl = true ∧
      (upsertArticle store nextId sourceCode canonicalUrl title summary publishedAt
        sourceName providerName).article.id = a.id) ∧
    (∀ (store : List Article) (nextId : Nat) (sourceCode canonicalUrl title : String)
        (summary : Option String) (publishedAt : Int) (sourceName providerName : String)
        (b : Article),
      findByUrlHash store (sha256Str canonicalUrl) = none →
      sourceCode ≠ GENERAL_SOURCE_CODE →
      findTitleWindowMatch store (sha256Str (normalizeTitle title))
        (publishedAt - 48 * 3600) (publishedAt + 48 * 3600) = some b →
      (upsertArticle store nextId sourceCode canonicalUrl title summary publishedAt
        sourceName providerName).created = false ∧
      (upsertArticle store nextId sourceCode canonicalUrl title summary publishedAt
        sourceName providerName).matchedByUrl = false ∧
      (upsertArticle store nextId sourceCode canonicalUrl title summary publishedAt
        sourceName providerName).article.id = b.id) ∧
    (∀ (store : List Article) (nextId : Nat) (canonicalUrl title : String)
        (summary : Option String) (publishedAt : Int) (sourceName providerName : String),
      findByUrlHash store (sha256Str canonicalUrl) = none →
      (upsertArticle store nextId GENERAL_SOURCE_CODE canonicalUrl title summary
        publishedAt sourceName providerName).created = true ∧
      (upsertArticle store nextId GENERAL_SOURCE_CODE canonicalUrl title summary
        publishedAt sourceName providerName).article.id = nextId) ∧
    (∀ (store : List Article) (th : String) (ws we : Int) (b : Article),
      findTitleWindowMatch store th ws we = some b →
      b ∈ store ∧ b.titleNormalizedHash = th ∧ ws ≤ b.publishedAt ∧ b.publishedAt ≤ we ∧
      ∀ a ∈ store, a.titleNormalizedHash = th → ws ≤ a.publishedAt →
        a.publishedAt ≤ we → a.id ≤ b.id) := by
  refine ⟨?_, ?_, ?_, findTitleWindowMatch_spec⟩
  · intro store nextId sourceCode canonicalUrl title summary publishedAt sourceName
      providerName a hfind
    simp only [upsertArticle, hfind]
    exact ⟨by trivial, by trivial, by trivial⟩
  · intro store nextId sourceCode canonicalUrl title summary publishedAt sourceName
      providerName b hnone hsrc hfuzzy
    simp only [upsertArticle, hnone, if_pos hsrc, hfuzzy]
    exact ⟨by trivial, by trivial, by trivial⟩
  · intro store nextId canonicalUrl title summary publishedAt sourceName providerName hnone
    simp only [upsertArticle, hnone, if_neg (show ¬ GENERAL_SOURCE_CODE ≠ GENERAL_SOURCE_CODE
      from fun h => h rfl)]
    exact ⟨by trivial, by trivial⟩

def c1UrlArticle : Article :=
  ⟨1, "https://example.com/a", sha256Str "https://example.com/a", "Headline one",
    some "s1", 0, "Src", "Prov", "ch",
    sha256Str (normalizeTitle "Headline one"), sha256Str (normalizeTitle "Headline one")⟩

/-- Witness for C1: a one-row store exercising the exact-URL branch, the
fuzzy branch (same normalized title, published time inside the window), the
general-stream no-merge branch, and the window-match characterization. -/
theorem c1_identity_resolution_witness :
    (findByUrlHash [c1UrlArticle] (sha256Str "https://example.com/a") = some c1UrlArticle ∧
      (upsertArticle [c1UrlArticle] 2 "yahoo" "https://example.com/a" "Headline one"
        none 0 "S" "P").created = false ∧
      (upsertArticle [c1UrlArticle] 2 "yahoo" "https://example.com/a" "Headline one"
        none 0 "S" "P").matchedByUrl = true) ∧
    (findByUrlHash [c1UrlArticle] (sha256Str "https://example.com/b") = none ∧
      (upsertArticle [c1UrlArticle] 2 "yahoo" "https://example.com/b" "Headline one"
        none 0 "S" "P").created = false ∧
      (upsertArticle [c1UrlArticle] 2 "yahoo" "https://example.com/b" "Headline one"
        none 0 "S" "P").article.id = c1UrlArticle.id) ∧
    ((upsertArticle [c1UrlArticle] 2 GENERAL_SOURCE_CODE "https://example.com/b"
        "Headline one" none 0 "S" "P").created = true ∧
      (upsertArticle [c1UrlArticle] 2 GENERAL_SOURCE_CODE "https://example.com/b"
        "Headline one" none 0 "S" "P").article.id = 2) ∧
    (findTitleWindowMatch [c1UrlArticle] (sha256Str (normalizeTitle "Headline one"))
        (0 - 48 * 3600) (0 + 48 * 3600) = some c1UrlArticle ∧
      c1UrlArticle ∈ [c1UrlArticle]) :=
  ⟨⟨by decide,
    (c1_identity_resolution.1 [c1UrlArticle] 2 "yahoo" "https://example.com/a"
      "Headline one" none 0 "S" "P" c1UrlArticle (by decide)).1,
    (c1_identity_resolution.1 [c1UrlArticle] 2 "yahoo" "https://example.com/a"
      "Headline one" none 0 "S" "P" c1UrlArticle (by decide)).2.1⟩,
   ⟨by decide,
    (c1_identity_resolution.2.1 [c1UrlArticle] 2 "yahoo" "https://example.com/b"
      "Headline one" none 0 "S" "P" c1UrlArticle (by decide) (by decide) (by decide)).1,
    (c1_identity_resolution.2.1 [c1UrlArticle] 2 "yahoo" "https://example.com/b"
      "Headline one" none 0 "S" "P" c1UrlArticle (by decide) (by decide) (by decide)).2.2⟩,
   ⟨(c1_identity_resolution.2.2.1 [c1UrlArticle] 2 "https://example.com/b"
      "Headline one" none 0 "S" "P" (by decide)).1,
    (c1_identity_resolution.2.2.1 [c1UrlArticle] 2 "https://example.com/b"
      "Headline one" none 0 "S" "P" (by decide)).2⟩,
   ⟨by decide,
    (c1_identity_resolution.2.2.2 [c1UrlArticle]
      (sha256Str (normalizeTitle "Headline one")) (0 - 48 * 3600) (0 + 48 * 3600)
      c1UrlArticle (by decide)).1⟩⟩

end NewsResearch

namespace NewsResearch

/-- The `uq_article_ticker` uniqueness invariant on the rows of one article:
pairwise distinct ticker ids. -/
def distinctTids (rows : List TickerRow) : Prop :=
  rows.Pairwise fun r1 r2 => r1.tickerId ≠ r2.tickerId

theorem find?_self_of_distinct {rows : List TickerRow} {r : TickerRow}
    (hp : distinctTids rows) (hr : r ∈ rows) :
    rows.find? (fun x => x.tickerId == r.tickerId) = some r := by
  induction rows with
  | nil => exact absurd hr (List.not_mem_nil r)
  | cons a t ih =>
    have hpa := List.pairwise_cons.mp hp
    rcases List.mem_cons.mp hr with rfl | hr2
    · rw [List.find?_cons_of_pos _ (by simp)]
    · have hne : a.tickerId ≠ r.tickerId := hpa.1 r hr2
      rw [List.find?_cons_of_neg _ (by simpa using hne)]
      exact ih hpa.2 hr2

theorem distinct_append_new {rows : List TickerRow} {tid aid : Nat} {mt : String} {c : ℚ}
    (hp : distinctTids rows)
    (hn : rows.find? (fun r => r.tickerId == tid) = none) :
    distinctTids (rows ++ [⟨aid, tid, mt, c⟩]) := by
  refine List.pairwise_append.mpr ⟨hp, List.pairwise_singleton _ _, ?_⟩
  intro a ha b hb
  have hb2 : b = ⟨aid, tid, mt, c⟩ := by simpa using hb
  subst hb2
  have := List.find?_eq_none.mp hn a ha
  simpa using this

theorem distinct_map_update {rows : List TickerRow} {tid : Nat} {mt : String} {c : ℚ}
    (hp : distinctTids rows) :
    distinctTids (rows.map fun r =>
      if r.tickerId == tid then { r with matchType := mt, confidence := c } else r) := by
  refine List.Pairwise.map _ ?_ hp
  intro a b hab
  by_cases h1 : (a.tickerId == tid) = true
  · by_cases h2 : (b.tickerId == tid) = true
    · exact absurd ((beq_iff_eq.mp h1).trans (beq_iff_eq.mp h2).symm) hab
    · rw [if_pos h1, if_neg h2]; exact hab
  · by_cases h2 : (b.tickerId == tid) = true
    · rw [if_neg h1, if_pos h2]; exact hab
    · rw [if_neg h1, if_neg h2]; exact hab

theorem loop_distinct (aid : Nat) (s2i : List (String × Nat)) :
    ∀ (hits : List (String × String × ℚ)) (rows : List TickerRow) (resolved : List Nat),
      distinctTids rows → distinctTids (upsertTickersLoop aid s2i hits rows resolved).1 := by
  intro hits
  induction hits with
  | nil => intro rows resolved hp; exact hp
  | cons hit rest ih =>
    obtain ⟨sym, mt, c⟩ := hit
    intro rows resolved hp
    simp only [upsertTickersLoop]
    split
    · exact ih _ _ hp
    · split
      next hf => exact ih _ _ (distinct_append_new hp hf)
      next row hf =>
        split
        · exact ih _ _ (distinct_map_update hp)
        · exact ih _ _ hp

theorem loop_resolved_sub (aid : Nat) (s2i : List (String × Nat)) :
    ∀ (hits : List (String × String × ℚ)) (rows : List TickerRow) (resolved : List Nat),
      resolved ⊆ (upsertTickersLoop aid s2i hits rows resolved).2 := by
  intro hits
  induction hits with
  | nil => intro rows resolved; exact fun _ h => h
  | cons hit rest ih =>
    obtain ⟨sym, mt, c⟩ := hit
    intro rows resolved
    simp only [upsertTickersLoop]
    split
    · exact ih _ _
    · split
      · exact (List.subset_cons_self _ resolved).trans (ih _ _)
      · split
        · exact (List.subset_cons_self _ resolved).trans (ih _ _)
        · exact (List.subset_cons_self _ resolved).trans (ih _ _)

theorem loop_hit_resolved (aid : Nat) (s2i : List (String × Nat)) :
    ∀ (hits : List (String × String × ℚ)) (rows : List TickerRow) (resolved : List Nat)
      (sym mt : String) (c : ℚ) (tid : Nat),
      (sym, mt, c) ∈ hits → lookupSymbolId s2i sym = some tid →
      tid ∈ (upsertTickersLoop aid s2i hits rows resolved).2 := by
  intro hits
  induction hits with
  | nil =>
    intro rows resolved sym mt c tid hmem _
    exact absurd hmem (List.not_mem_nil _)
  | cons hit rest ih =>
    obtain ⟨sym0, mt0, c0⟩ := hit
    intro rows resolved sym mt c tid hmem hlook
    rcases List.mem_cons.mp hmem with heq | hmem2
    · obtain ⟨rfl, rfl, rfl⟩ : sym = sym0 ∧ mt = mt0 ∧ c = c0 := by
        refine ⟨congrArg Prod.fst heq, ?_, ?_⟩
        · exact congrArg (fun p => p.2.1) heq
        · exact congrArg (fun p => p.2.2) heq
      simp only [upsertTickersLoop, hlook]
      split
      · exact loop_resolved_sub aid s2i rest _ _ (List.mem_cons_self tid resolved)
      · split
        · exact loop_resolved_sub aid s2i rest _ _ (List.mem_cons_self tid resolved)
        · exact loop_resolved_sub aid s2i rest _ _ (List.mem_cons_self tid resolved)
    · simp only [upsertTickersLoop]
      split
      · exact ih _ _ sym mt c tid hmem2 hlook
      · split
        · exact ih _ _ sym mt c tid hmem2 hlook
        · split
          · exact ih _ _ sym mt c tid hmem2 hlook
          · exact ih _ _ sym mt c tid hmem2 hlook

theorem loop_mono (aid : Nat) (s2i : List (String × Nat)) :
    ∀ (hits : List (String × String × ℚ)) (rows : List TickerRow) (resolved : List Nat)
      (tid : Nat) (c0 : ℚ),
      distinctTids rows →
      (∃ r ∈ rows, r.tickerId = tid ∧ c0 ≤ r.confidence) →
      ∃ r' ∈ (upsertTickersLoop aid s2i hits rows resolved).1,
        r'.tickerId = tid ∧ c0 ≤ r'.confidence := by
  intro hits
  induction hits with
  | nil => intro rows resolved tid c0 _ hex; exact hex
  | cons hit rest ih =>
    obtain ⟨sym0, mt0, c0'⟩ := hit
    intro rows resolved tid c0 hp hex
    simp only [upsertTickersLoop]
    split
    · exact ih _ _ tid c0 hp hex
    next tid0 hl0 =>
      split
      next hf =>
        obtain ⟨r, hr, htid, hc⟩ := hex
        exact ih _ _ tid c0 (distinct_append_new hp hf)
          ⟨r, List.mem_append_left _ hr, htid, hc⟩
      next row hf =>
        split
        next hgt =>
          obtain ⟨r, hr, htid, hc⟩ := hex
          by_cases htid0 : r.tickerId = tid0
          · have hrow : row = r := by
              have h1 := find?_self_of_distinct hp hr
              rw [htid0] at h1
              rw [h1] at hf
              exact (Option.some.inj hf).symm
            refine ih _ _ tid c0 (distinct_map_update hp)
              ⟨{ r with matchType := mt0, confidence := c0' }, ?_, htid, ?_⟩
            · refine List.mem_map.mpr ⟨r, hr, ?_⟩
              rw [if_pos (by simpa using htid0)]
            · subst hrow
              exact hc.trans (le_of_lt hgt)
          · refine ih _ _ tid c0 (distinct_map_update hp) ⟨r, ?_, htid, hc⟩
            refine List.mem_map.mpr ⟨r, hr, ?_⟩
            rw [if_neg (by simpa using htid0)]
        next hgt =>
          exact ih _ _ tid c0 hp hex

theorem loop_unchanged (aid : Nat) (s2i : List (String × Nat)) :
    ∀ (hits : List (String × String × ℚ)) (rows : List TickerRow) (resolved : List Nat)
      (r : TickerRow),
      distinctTids rows → r ∈ rows →
      (∀ sym mt c, (sym, mt, c) ∈ hits → lookupSymbolId s2i sym = some r.tickerId →
        c ≤ r.confidence) →
      r ∈ (upsertTickersLoop aid s2i hits rows resolved).1 := by
  intro hits
  induction hits with
  | nil => intro rows resolved r _ hr _; exact hr
  | cons hit rest ih =>
    obtain ⟨sym0, mt0, c0⟩ := hit
    intro rows resolved r hp hr hle
    have hle2 : ∀ sym mt c, (sym, mt, c) ∈ rest →
        lookupSymbolId s2i sym = some r.tickerId → c ≤ r.confidence :=
      fun sym mt c hm hl => hle sym mt c (List.mem_cons_of_mem _ hm) hl
    simp only [upsertTickersLoop]
    split
    · exact ih _ _ r hp hr hle2
    next tid0 hl =>
      split
      next hf =>
        exact ih _ _ r (distinct_append_new hp hf) (List.mem_append_left _ hr) hle2
      next row hf =>
        split
        next hgt =>
          have htid0 : ¬ tid0 = r.tickerId := by
            intro htid0
            have hrow : row = r := by
              have h1 := find?_self_of_distinct hp hr
              rw [← htid0] at h1
              rw [h1] at hf
              exact (Option.some.inj hf).symm
            have hc0 : c0 ≤ r.confidence :=
              hle sym0 mt0 c0 (List.mem_cons_self _ _) (htid0 ▸ hl)
            rw [hrow] at hgt
            exact absurd hgt (not_lt.mpr hc0)
          refine ih _ _ r (distinct_map_update hp) ?_ hle2
          have hfr : (if r.tickerId == tid0 then
              ({ r with matchType := mt0, confidence := c0 } : TickerRow) else r) = r := by
            rw [if_neg (by simpa using fun hq : r.tickerId = tid0 => htid0 hq.symm)]
          rw [← hfr]
          exact List.mem_map_of_mem _ hr
        next hgt =>
          exact ih _ _ r hp hr hle2

end NewsResearch

namespace NewsResearch

/-- **C3**: for an existing (article, ticker) association matched by the
current upsert (some hit resolves to its ticker id), (1) the stored
confidence after the upsert is at least the confidence before — the
association survives (even under pruning) and never regresses; (2) if no
matching hit carries a strictly higher confidence, the row is left exactly
as it was — same confidence and same match_type — so re-applying a match of
the same heuristic strength changes nothing, and confidence/match_type are
overwritten only by a strictly higher incoming confidence. -/
theorem c3_confidence_monotonicity :
    (∀ (articleId : Nat) (existing : List TickerRow)
        (tickerHits : List (String × String × ℚ)) (symbolToId : List (String × Nat))
        (pruneMissing : Bool) (r : TickerRow) (sym mt : String) (c : ℚ),
      distinctTids existing → r ∈ existing →
      (sym, mt, c) ∈ tickerHits → lookupSymbolId symbolToId sym = some r.tickerId →
      ∃ r' ∈ upsertArticleTickers articleId existing tickerHits symbolToId pruneMissing,
        r'.tickerId = r.tickerId ∧ r.confidence ≤ r'.confidence) ∧
    (∀ (articleId : Nat) (existing : List TickerRow)
        (tickerHits : List (String × String × ℚ)) (symbolToId : List (String × Nat))
        (pruneMissing : Bool) (r : TickerRow) (sym mt : String) (c : ℚ),
      distinctTids existing → r ∈ existing →
      (sym, mt, c) ∈ tickerHits → lookupSymbolId symbolToId sym = some r.tickerId →
      (∀ sym' mt' c', (sym', mt', c') ∈ tickerHits →
        lookupSymbolId symbolToId sym' = some r.tickerId → c' ≤ r.confidence) →
      r ∈ upsertArticleTickers articleId existing tickerHits symbolToId pruneMissing) := by
  constructor
  · intro articleId existing tickerHits symbolToId pruneMissing r sym mt c
      hdist hr hmem hlook
    have hne : tickerHits.isEmpty = false := by
      cases tickerHits with
      | nil => exact absurd hmem (List.not_mem_nil _)
      | cons _ _ => rfl
    simp only [upsertArticleTickers, hne, Bool.false_and]
    rw [if_neg Bool.false_ne_true]
    cases pruneMissing with
    | false =>
      rw [if_neg Bool.false_ne_true]
      exact loop_mono articleId symbolToId tickerHits existing [] r.tickerId r.confidence
        hdist ⟨r, hr, rfl, le_refl _⟩
    | true =>
      rw [if_pos rfl]
      obtain ⟨r', hr', htid, hc⟩ := loop_mono articleId symbolToId tickerHits existing []
        r.tickerId r.confidence hdist ⟨r, hr, rfl, le_refl _⟩
      refine ⟨r', List.mem_filter.mpr ⟨hr', ?_⟩, htid, hc⟩
      simp only [decide_eq_true_eq]
      rw [htid]
      exact loop_hit_resolved articleId symbolToId tickerHits existing [] sym mt c
        r.tickerId hmem hlook
  · intro articleId existing tickerHits symbolToId pruneMissing r sym mt c
      hdist hr hmem hlook hle
    have hne : tickerHits.isEmpty = false := by
      cases tickerHits with
      | nil => exact absurd hmem (List.not_mem_nil _)
      | cons _ _ => rfl
    simp only [upsertArticleTickers, hne, Bool.false_and]
    rw [if_neg Bool.false_ne_true]
    cases pruneMissing with
    | false =>
      rw [if_neg Bool.false_ne_true]
      exact loop_unchanged articleId symbolToId tickerHits existing [] r hdist hr hle
    | true =>
      rw [if_pos rfl]
      refine List.mem_filter.mpr
        ⟨loop_unchanged articleId symbolToId tickerHits existing [] r hdist hr hle, ?_⟩
      simp only [decide_eq_true_eq]
      exact loop_hit_resolved articleId symbolToId tickerHits existing [] sym mt c
        r.tickerId hmem hlook

def c3Row : TickerRow := ⟨7, 10, "token", confToken⟩

/-- Witness for C3: one stored association (confidence 0.62, `token`); a
stronger `exchange` re-match raises it, and a re-match of the identical
strength leaves the row untouched. -/
theorem c3_confidence_monotonicity_witness :
    (distinctTids [c3Row] ∧ c3Row ∈ [c3Row] ∧
      ("GOF", "exchange", confExchange) ∈ [("GOF", "exchange", confExchange)] ∧
      lookupSymbolId [("GOF", 10)] "GOF" = some c3Row.tickerId ∧
      ∃ r' ∈ upsertArticleTickers 7 [c3Row] [("GOF", "exchange", confExchange)]
          [("GOF", 10)] true,
        r'.tickerId = c3Row.tickerId ∧ c3Row.confidence ≤ r'.confidence) ∧
    (c3Row ∈ upsertArticleTickers 7 [c3Row] [("GOF", "token", confToken)]
        [("GOF", 10)] false) :=
  ⟨⟨List.pairwise_singleton _ _, by decide, by decide, by decide,
    c3_confidence_monotonicity.1 7 [c3Row] [("GOF", "exchange", confExchange)]
      [("GOF", 10)] true c3Row "GOF" "exchange" confExchange
      (List.pairwise_singleton _ _) (by decide) (by decide) (by decide)⟩,
   c3_confidence_monotonicity.2 7 [c3Row] [("GOF", "token", confToken)]
      [("GOF", 10)] false c3Row "GOF" "token" confToken
      (List.pairwise_singleton _ _) (by decide) (by decide) (by decide)
      (by
        intro sym' mt' c' hm hl
        have : sym' = "GOF" ∧ mt' = "token" ∧ c' = confToken := by
          have h1 : (sym', mt', c') = ("GOF", "token", confToken) := by simpa using hm
          exact ⟨congrArg Prod.fst h1, congrArg (fun p => p.2.1) h1,
            congrArg (fun p => p.2.2) h1⟩
        rw [this.2.2]
        exact le_refl _)⟩

end NewsResearch
